import Mathlib

/-!
Verification development for the make-ready briefing pipeline.

The development shallowly embeds the data-handling core of the repository:

* the server-side enrichment function (supabase/functions/equips-proxy/index.ts):
  the custom-field flattening with date formatting and year elision,
  the status fallback chain, and the inclusion filter;
* the client-side normalization and report model
  (src/components/ReportGenerator.tsx): field reconciliation, local date
  parsing, grouping by date and month, and the month-range window;
* the fetch orchestration of src/App.tsx: cache fallback on failure.

Modelling conventions:

* JavaScript runtime values are modelled by the inductive type JsVal with
  JavaScript truthiness; numbers are modelled as integers (every number the
  pipeline manipulates is an epoch-millisecond count or a count of records);
* JavaScript objects that the code treats as open records are modelled as
  insertion-ordered association lists with unique keys;
* locale date rendering (toLocaleDateString with the en-US locale) is modelled
  by explicit rendering functions producing the strings the en-US locale
  produces, over a civil calendar computed from epoch days in UTC, which is
  the timezone of the server runtime;
* JavaScript string primitives (split, trim, parseInt) are modelled by
  executable character-list functions so that every definition evaluates
  inside the kernel.
-/

namespace MakeReady

/-- Model of a JavaScript runtime value as far as the pipeline observes it:
null, undefined, booleans, (integer) numbers, strings. Nested objects appear
only at statically known places and are modelled structurally there. -/
inductive JsVal : Type where
  | vnull : JsVal
  | vundef : JsVal
  | vbool : Bool → JsVal
  | vnum : Int → JsVal
  | vstr : String → JsVal
deriving DecidableEq, Repr

/-- JavaScript truthiness of a value. -/
def truthy : JsVal → Bool
  | .vnull => false
  | .vundef => false
  | .vbool b => b
  | .vnum n => n != 0
  | .vstr s => s != ""

/-- Model of the JavaScript a || b operator on values. -/
def jsOr (a b : JsVal) : JsVal := if truthy a then a else b

/-- Digit characters. -/
def isDigitChar (c : Char) : Bool := '0' ≤ c && c ≤ '9'

/-- Decimal value of a digit-character list, most significant digit first. -/
def charsToNat (l : List Char) : Nat :=
  l.foldl (fun acc c => acc * 10 + (c.toNat - 48)) 0

/-- Fuel-driven decimal rendering of a natural number (the fuel always
suffices because a number is smaller than itself plus one). -/
def natToCharsCore (fuel n : Nat) : List Char :=
  match fuel with
  | 0 => []
  | fuel + 1 =>
    if n < 10 then [Nat.digitChar n]
    else natToCharsCore fuel (n / 10) ++ [Nat.digitChar (n % 10)]

/-- Decimal rendering of a natural number as a digit-character list; this is
the model of how the en-US locale renders a numeric year or day. -/
def natToChars (n : Nat) : List Char := natToCharsCore (n + 1) n

/-- Decimal rendering as a string. -/
def natToString (n : Nat) : String := String.mk (natToChars n)

/-- Model of JavaScript String.prototype.split with a one-character
separator, at the character-list level. -/
def splitCharList (sep : Char) : List Char → List (List Char)
  | [] => [[]]
  | c :: cs =>
    match splitCharList sep cs with
    | [] => [[c]]
    | h :: t => if c = sep then [] :: h :: t else (c :: h) :: t

/-- Model of JavaScript String.prototype.split with a one-character
separator. -/
def jsSplit (sep : Char) (s : String) : List String :=
  (splitCharList sep s.data).map String.mk

/-- Model of JavaScript String.prototype.trim (whitespace from both ends). -/
def jsTrim (s : String) : String :=
  String.mk (((s.data.dropWhile Char.isWhitespace).reverse.dropWhile
    Char.isWhitespace).reverse)

/-- Model of JavaScript parseInt on the strings this code feeds it (no sign,
no radix prefix): the longest leading run of decimal digits, NaN — modelled
as none — when there is no leading digit. -/
def jsParseInt (s : String) : Option Int :=
  let ds := s.data.takeWhile isDigitChar
  if ds.isEmpty then none else some (charsToNat ds)

/-! ### Civil calendar from epoch milliseconds

The server runs in UTC, so new Date(ms).getFullYear() and the en-US short
date rendering are determined by the civil date of the UTC day containing
ms. civilFromDays is the standard days-to-civil conversion. -/

/-- Civil (year, month, day) of a count of days since 1970-01-01. -/
def civilFromDays (z0 : Int) : Int × Int × Int :=
  let z := z0 + 719468
  let era := z.fdiv 146097
  let doe := z - era * 146097
  let yoe := (doe - doe.fdiv 1460 + doe.fdiv 36524 - doe.fdiv 146096).fdiv 365
  let y := yoe + era * 400
  let doy := doe - (365 * yoe + yoe.fdiv 4 - yoe.fdiv 100)
  let mp := (5 * doy + 2).fdiv 153
  let d := doy - (153 * mp + 2).fdiv 5 + 1
  let m := if mp < 10 then mp + 3 else mp - 9
  (if m ≤ 2 then y + 1 else y, m, d)

/-- Civil (year, month, day) of an epoch-millisecond count, in UTC. -/
def civilFromMs (ms : Int) : Int × Int × Int := civilFromDays (ms.fdiv 86400000)

/-- Model of new Date(ms).getFullYear() on the UTC server. -/
def yearOfMs (ms : Int) : Int := (civilFromMs ms).1

/-- Short month name of month number 1..12 as the en-US locale renders it. -/
def monthShortName : Int → String
  | 1 => "Jan" | 2 => "Feb" | 3 => "Mar" | 4 => "Apr"
  | 5 => "May" | 6 => "Jun" | 7 => "Jul" | 8 => "Aug"
  | 9 => "Sep" | 10 => "Oct" | 11 => "Nov" | 12 => "Dec"
  | _ => ""

/-- Decimal rendering of an integer that is known to be nonnegative in every
use (calendar components); negative inputs render their absolute value with
a leading minus sign, as toString does. -/
def intToString (n : Int) : String :=
  if n < 0 then String.mk ('-' :: natToChars n.natAbs) else natToString n.natAbs

/-- Model of new Date(ms).toLocaleDateString('en-US', opts) where opts asks
for a short month and numeric day, and optionally a numeric year: "Feb 23"
without the year, "Feb 23, 2025" with it. -/
def renderShortDate (ms : Int) (withYear : Bool) : String :=
  let c := civilFromMs ms
  let core := monthShortName c.2.1 ++ " " ++ intToString c.2.2
  if withYear then core ++ ", " ++ intToString c.1 else core

/-! ### Server-side enrichment (supabase/functions/equips-proxy/index.ts)

These definitions embed the most recent proxy revision (the first document
in the file): parallel paging, the inclusion filter, the status resolution
fallback, and custom-field flattening with year elision. -/

/-- Custom field key mapping: snake_case API keys to camelCase report
fields, in source order. -/
def CUSTOM_FIELD_MAP : List (String × String) :=
  [("cp_walk_date", "cpWalkDate"), ("evs", "evs"), ("key_release", "keyRelease"),
   ("hhg", "hhg"), ("move_in", "moveIn"), ("ntv", "ntv"),
   ("vacate", "vacate"), ("kti", "kti")]

/-- Fixed requestStatus enum to human-readable display table. -/
def STATUS_DISPLAY : List (String × String) :=
  [("proposed", "Proposed"), ("internalDispatch", "Internal Dispatch"),
   ("equipsDispatch", "Equips Dispatch"), ("providerDispatch", "Provider Dispatch"),
   ("serviceComplete", "Service Complete"), ("closed", "Closed"),
   ("canceled", "Canceled"), ("invoiced", "Invoiced"),
   ("followUp", "Follow Up"), ("awaitingPayment", "Awaiting Payment"),
   ("inProgress", "In Progress"), ("onHold", "On Hold")]

/-- Model of the omitYear argument: a JavaScript number | undefined. -/
def omitYearTruthy : Option Int → Bool
  | none => false
  | some y => y != 0

/-- Embedding of formatEpoch: a number above the plausibility threshold is
rendered as a short date, where the year is included unless omitYear is
truthy and equals the date's year; a non-blank string passes through;
everything else becomes the empty string. -/
def formatEpoch (value : JsVal) (omitYear : Option Int) : String :=
  match value with
  | .vnum n =>
    if n > 1000000000 then
      renderShortDate n (!(omitYearTruthy omitYear) || yearOfMs n != (omitYear.getD 0))
    else ""
  | .vstr s => if jsTrim s ≠ "" then s else ""
  | _ => ""

/-- Generic enum formatter of formatStatus: insert a space before each
capital letter, uppercase the first character, trim. -/
def formatStatusGeneric (rs : String) : String :=
  let spaced := rs.data.foldr
    (fun c acc => if c.isUpper then ' ' :: c :: acc else c :: acc) []
  let upped := match spaced with
    | [] => []
    | c :: cs => c.toUpper :: cs
  jsTrim (String.mk upped)

/-- Embedding of formatStatus: the fixed table entry when present (and
non-empty, by the || in the source), the generic formatter otherwise. -/
def formatStatus (requestStatus : String) : String :=
  match STATUS_DISPLAY.lookup requestStatus with
  | some v => if v = "" then formatStatusGeneric requestStatus else v
  | none => formatStatusGeneric requestStatus

/-- Projection of a fetched service-request record onto the fields the
enrichment reads; everything else rides along untouched and is irrelevant
to the claims about enrichment, so it is not modelled. requestStatus is a
string enum or absent, per the upstream API contract the code relies on. -/
structure SRec : Type where
  serviceWorkflowToServiceStatusId : JsVal
  requestStatus : Option String
  dueDate : JsVal
  customFields : Option (List (String × JsVal))
deriving DecidableEq, Repr

/-- Embedding of the inclusion filter: keep the records whose
serviceWorkflowToServiceStatusId is truthy. -/
def relevantFilter (srs : List SRec) : List SRec :=
  srs.filter (fun sr => truthy sr.serviceWorkflowToServiceStatusId)

/-- String coercion of the identifier, modelling the as-string cast used as
the lookup key; only string identifiers occur in practice. -/
def swtsKey (sr : SRec) : String :=
  match sr.serviceWorkflowToServiceStatusId with
  | .vstr s => s
  | _ => ""

/-- Embedding of the statusName computation of the enrichment map:
the resolved name when the lookup produced a non-empty one, otherwise the
formatted raw requestStatus, otherwise the literal Unknown. -/
def statusNameOf (statusNameMap : List (String × String)) (sr : SRec) : String :=
  let resolvedStatusName := (statusNameMap.lookup (swtsKey sr)).getD ""
  if resolvedStatusName ≠ "" then resolvedStatusName
  else
    match sr.requestStatus with
    | some rs => if rs ≠ "" then formatStatus rs else "Unknown"
    | none => "Unknown"

/-- The dueDate-derived year of a record: defined exactly when dueDate is a
truthy number, as in the enrichment's dueDateYear. -/
def dueDateYearOf (sr : SRec) : Option Int :=
  match sr.dueDate with
  | .vnum n => if n ≠ 0 then some (yearOfMs n) else none
  | _ => none

/-- Embedding of the per-record omitYear: the current year when the dueDate
year equals it, undefined otherwise. -/
def omitYearOf (currentYear : Int) (sr : SRec) : Option Int :=
  if dueDateYearOf sr = some currentYear then some currentYear else none

/-- Embedding of the allSameYear scan: true when omitYear is defined and
every custom-field value that is a number above the plausibility threshold
falls in that year. -/
def allSameYearOf (cfs : List (String × JsVal)) (omitYear : Option Int) : Bool :=
  match omitYear with
  | none => false
  | some oy =>
    CUSTOM_FIELD_MAP.all (fun p =>
      match cfs.lookup p.1 with
      | some (.vnum v) => if v > 1000000000 then yearOfMs v == oy else true
      | _ => true)

/-- Embedding of the custom-field flattening of one record: each mapped key
present in the blob is surfaced under its camelCase name, formatted with
formatEpoch and the record-level year-to-omit. -/
def flattenCF (currentYear : Int) (sr : SRec) : List (String × String) :=
  match sr.customFields with
  | none => []
  | some cfs =>
    let omitYear := omitYearOf currentYear sr
    let yearToOmit := if allSameYearOf cfs omitYear then omitYear else none
    CUSTOM_FIELD_MAP.filterMap (fun p =>
      (cfs.lookup p.1).map (fun v => (p.2, formatEpoch v yearToOmit)))

/-! ### Client-side records and field reconciliation
(src/components/ReportGenerator.tsx) -/

/-- Open record as delivered by the API: an insertion-ordered association
list from string keys to values. JavaScript objects have unique keys; the
theorems that need uniqueness state it as a hypothesis. -/
abbrev RawRecord : Type := List (String × JsVal)

/-- Keys of a record, in insertion order. -/
def keysOf (e : RawRecord) : List String := e.map Prod.fst

/-- Unique-keys property of a JavaScript object. -/
def NodupKeys (e : RawRecord) : Prop := (keysOf e).Nodup

instance (e : RawRecord) : Decidable (NodupKeys e) :=
  inferInstanceAs (Decidable (keysOf e).Nodup)

/-- Property read: a missing key reads as undefined. -/
def getField (e : RawRecord) (k : String) : JsVal :=
  ((e.lookup k).getD .vundef : JsVal)

/-- A chain k1 || k2 || ... || dflt of property reads, first truthy wins. -/
def orGet (e : RawRecord) (ks : List String) (dflt : JsVal) : JsVal :=
  ks.foldr (fun k acc => jsOr (getField e k) acc) dflt

/-- The canonical output keys of normalizeEntry, in literal order. -/
def canonicalKeys : List String :=
  ["date", "time", "status", "title", "description", "details", "cpWalkDate",
   "evs", "keyRelease", "hhg", "moveIn", "ntv", "vacate", "openWOs", "kti",
   "serviceRequestId"]

/-- The canonical field/value pairs built by the normalizeEntry object
literal, before the trailing spread of the raw entry; each value is the
source's candidate-key priority chain. -/
def canonicalPairs (e : RawRecord) : RawRecord :=
  let timeRaw := orGet e ["time", "Time"] (.vstr "")
  [("date", orGet e ["Due Date: Day", "due_date", "dueDate", "Due_Date",
      "DueDate", "date", "Date", "created_at", "createdAt"] .vnull),
   ("time", if timeRaw = JsVal.vstr "All Day" then JsVal.vstr "" else timeRaw),
   ("status", orGet e ["Status - StatusId → Name", "status", "Status",
      "state", "State"] (.vstr "UNKNOWN")),
   ("title", orGet e ["title", "Title", "name", "Name"] (.vstr "Untitled")),
   ("description", orGet e ["descriptionText2", "description", "Description",
      "desc", "Desc"] (.vstr "")),
   ("details", orGet e ["details", "Details", "notes", "Notes"] (.vstr "")),
   ("cpWalkDate", orGet e ["CP Walk Date", "cpWalkDate", "cp_walk_date"] (.vstr "")),
   ("evs", orGet e ["EVS", "evs", "EVS_Date"] (.vstr "")),
   ("keyRelease", orGet e ["Key Release", "keyRelease", "key_release"] (.vstr "")),
   ("hhg", orGet e ["HHG", "hhg", "HHG_Date"] (.vstr "")),
   ("moveIn", orGet e ["Move In", "moveIn", "move_in"] (.vstr "")),
   ("ntv", orGet e ["NTV", "ntv", "NTV_Date"] (.vstr "")),
   ("vacate", orGet e ["Vacate", "vacate", "Vacate_Date"] (.vstr "")),
   ("openWOs", orGet e ["Make Readys - Location → Count Open", "openWOs",
      "open_wos"] (.vstr "")),
   ("kti", orGet e ["KTI", "kti", "KTI_Date"] (.vstr "")),
   ("serviceRequestId", orGet e ["Service Request Id", "serviceRequestId",
      "service_request_id"] (.vstr ""))]

/-- Setting a key on an object: overwrite in place when present, append
otherwise. -/
def assocSetFirst {β : Type} : List (String × β) → String → β → List (String × β)
  | [], k, v => [(k, v)]
  | (k', v') :: rest, k, v =>
    if k' = k then (k', v) :: rest else (k', v') :: assocSetFirst rest k v

/-- Object spread: the extra record's properties are written onto the base
object left to right, as the trailing ...entry does. -/
def jsSpread (base extra : RawRecord) : RawRecord :=
  extra.foldl (fun acc p => assocSetFirst acc p.1 p.2) base

/-- Embedding of normalizeEntry: the canonical object literal followed by
the spread of the original entry. -/
def normalizeEntry (e : RawRecord) : RawRecord := jsSpread (canonicalPairs e) e

/-! ### Grouping by date (groupedData) -/

/-- String coercion of a value used as an object key. -/
def jsKeyString : JsVal → String
  | .vstr s => s
  | .vnum n => intToString n
  | .vbool b => cond b "true" "false"
  | .vnull => "null"
  | .vundef => "undefined"

/-- The date bucket key of an entry: entry.date || 'No Date', coerced to a
property key. -/
def dateKeyOf (t : RawRecord) : String :=
  jsKeyString (jsOr (getField t "date") (.vstr "No Date"))

/-- One step of the grouping reduce: push the entry onto its date bucket,
creating the bucket on first sight. -/
def groupStep (acc : List (String × List RawRecord)) (t : RawRecord) :
    List (String × List RawRecord) :=
  let k := dateKeyOf t
  match acc.lookup k with
  | some l => assocSetFirst acc k (l ++ [t])
  | none => acc ++ [(k, [t])]

/-- Embedding of groupedData: the reduce over the normalized entries. The
claims quantify over the entry list, so the argument is the list being
grouped. -/
def groupedData (ts : List RawRecord) : List (String × List RawRecord) :=
  ts.foldl groupStep []

/-! ### Local date parsing (parseLocalDate) -/

/-- Result of parseLocalDate: null for absent input, a components-built
date (new Date(year, month, day), with NaN components as none), or the
generic-parse fallback on the string with the noon marker appended. -/
inductive LocalDateResult : Type where
  | nullDate : LocalDateResult
  | components : Option Int → Option Int → Option Int → LocalDateResult
  | fallbackParse : String → LocalDateResult
deriving DecidableEq, Repr

/-- Embedding of parseLocalDate. The split on '-' models the JavaScript
split; exactly three parts trigger the manual component path. -/
def parseLocalDate (s : String) : LocalDateResult :=
  if s = "" || s = "No Date" then .nullDate
  else
    match jsSplit '-' s with
    | [p0, p1, p2] =>
      .components (jsParseInt p0) ((jsParseInt p1).map (· - 1)) (jsParseInt p2)
    | _ => .fallbackParse (s ++ "T12:00:00")

/-- Strict reading of a YYYY-MM-DD key: three hyphen-separated all-digit
parts of widths 4, 2, 2, returned as (year, month, day). -/
def parseYMD? (s : String) : Option (Nat × Nat × Nat) :=
  match jsSplit '-' s with
  | [ys, ms, ds] =>
    if ys.data.length == 4 && ys.data.all isDigitChar
        && ms.data.length == 2 && ms.data.all isDigitChar
        && ds.data.length == 2 && ds.data.all isDigitChar then
      some (charsToNat ys.data, charsToNat ms.data, charsToNat ds.data)
    else none
  | _ => none

/-- A well-formed calendar date key: YYYY-MM-DD with a positive year, a
month 1..12 and a day 1..31. -/
def isValidDateKey (s : String) : Bool :=
  match parseYMD? s with
  | some (y, m, d) => 1 ≤ y && 1 ≤ m && m ≤ 12 && 1 ≤ d && d ≤ 31
  | none => false

/-- Order-faithful model of the time value of a components-built local
date: for civil dates the millisecond clock is strictly monotone in the
lexicographic (year, month, day), and the report only compares time values,
so any strictly monotone encoding is an adequate model. -/
def componentsTimeVal : Option Int → Option Int → Option Int → Int
  | some y, some m0, some d => (y * 13 + (m0 + 1)) * 32 + d
  | _, _, _ => 0

/-- Time value of a date bucket key as the sort comparator computes it. -/
def jsTimeOf (s : String) : Int :=
  match parseLocalDate s with
  | .nullDate => 0
  | .components y m d => componentsTimeVal y m d
  | .fallbackParse _ => 0

/-- Embedding of the date-bucket comparator: 'No Date' sorts after
everything, otherwise the difference of time values. -/
def cmpDates (a b : String) : Int :=
  if a = "No Date" then 1 else if b = "No Date" then -1 else jsTimeOf a - jsTimeOf b

/-- Boolean order induced by the comparator (compare result at most 0). -/
def leDates (a b : String) : Bool := cmpDates a b ≤ 0

/-- Stable insertion of one element into a sorted list. -/
def insertSorted (le : String → String → Bool) (x : String) :
    List String → List String
  | [] => [x]
  | y :: ys => if le x y then x :: y :: ys else y :: insertSorted le x ys

/-- Stable sort by a boolean order; models Array.prototype.sort, which is a
stable comparator sort. -/
def jsSortBy (le : String → String → Bool) (l : List String) : List String :=
  l.foldr (insertSorted le) []

/-- Embedding of sortedDates: the bucket keys of groupedData sorted by the
date comparator. -/
def sortedDates (ts : List RawRecord) : List String :=
  jsSortBy leDates ((groupedData ts).map Prod.fst)

/-! ### Month grouping and the timeline window (getMonthGroups,
getFilteredDates) -/

/-- The en-US month-and-year label, e.g. "Feb 2025"; this string is both
the display label and the grouping key. -/
def monthLabel (y m : Nat) : String :=
  monthShortName (m : Int) ++ " " ++ natToString y

/-- Month label of a date bucket key; an unparseable key renders as an
invalid date does, which the validity hypotheses of the theorems rule
out. -/
def monthLabelOfDate (s : String) : String :=
  match parseYMD? s with
  | some (y, m, _) => monthLabel y m
  | none => "Invalid Date"

/-- One step of getMonthGroups: the 'No Date' bucket is assigned its
singleton, every other date is appended to its month's list. -/
def addMonth (acc : List (String × List String)) (d : String) :
    List (String × List String) :=
  if d = "No Date" then assocSetFirst acc "No Date" ["No Date"]
  else
    let k := monthLabelOfDate d
    match acc.lookup k with
    | some l => assocSetFirst acc k (l ++ [d])
    | none => acc ++ [(k, [d])]

/-- Embedding of the monthGroups object of getMonthGroups: built by
iterating the sorted date buckets. -/
def getMonthGroups (ts : List RawRecord) : List (String × List String) :=
  (sortedDates ts).foldl addMonth []

/-- Month number of a three-letter short month name. -/
def monthNum (s : String) : Option Nat :=
  if s = "Jan" then some 1 else if s = "Feb" then some 2
  else if s = "Mar" then some 3 else if s = "Apr" then some 4
  else if s = "May" then some 5 else if s = "Jun" then some 6
  else if s = "Jul" then some 7 else if s = "Aug" then some 8
  else if s = "Sep" then some 9 else if s = "Oct" then some 10
  else if s = "Nov" then some 11 else if s = "Dec" then some 12
  else none

/-- Parse of a "Mon YYYY" month label back to (year, month); models how
new Date(label + ' 1') reads the label when the month comparator sorts. -/
def labelInfo (s : String) : Option (Nat × Nat) :=
  match s.data with
  | c1 :: c2 :: c3 :: c4 :: rest =>
    if c4 = ' ' ∧ rest ≠ [] ∧ rest.all isDigitChar then
      match monthNum (String.mk [c1, c2, c3]) with
      | some m => some (charsToNat rest, m)
      | none => none
    else none
  | _ => none

/-- Order-faithful time value of the first of the labelled month; feeds the
month comparator. -/
def monthTimeOf (s : String) : Int :=
  match labelInfo s with
  | some (y, m) => ((y : Int) * 13 + (m : Int)) * 32 + 1
  | none => 0

/-- Embedding of the month-key comparator of getMonthGroups. -/
def cmpMonths (a b : String) : Int :=
  if a = "No Date" then 1 else if b = "No Date" then -1
  else monthTimeOf a - monthTimeOf b

/-- Boolean order induced by the month comparator. -/
def leMonths (a b : String) : Bool := cmpMonths a b ≤ 0

/-- Embedding of sortedMonthKeys. -/
def sortedMonthKeys (ts : List RawRecord) : List String :=
  jsSortBy leMonths ((getMonthGroups ts).map Prod.fst)

/-- Embedding of timelineMonths: the sorted month keys without 'No Date'. -/
def timelineMonths (ts : List RawRecord) : List String :=
  (sortedMonthKeys ts).filter (fun m => m ≠ "No Date")

/-- Embedding of hasNoDateEntries. -/
def hasNoDateEntries (ts : List RawRecord) : Bool :=
  (sortedMonthKeys ts).contains "No Date"

/-- Embedding of getFilteredDates: clamp the selected range into the
timeline, take the dates of the selected months, and always append the
'No Date' bucket when it exists. -/
def getFilteredDates (ts : List RawRecord) (range : Int × Int) : List String :=
  let tm := timelineMonths ts
  if tm.length = 0 then (if hasNoDateEntries ts then ["No Date"] else [])
  else
    let vs := max 0 (min range.1 ((tm.length : Int) - 1))
    let ve := max vs (min range.2 ((tm.length : Int) - 1))
    let selectedMonths := (tm.take (ve + 1).toNat).drop vs.toNat
    (selectedMonths.flatMap (fun m => ((getMonthGroups ts).lookup m).getD []))
      ++ (if hasNoDateEntries ts then ["No Date"] else [])

/-- The tasks the report renders for a range: the entries of each visible
date bucket, in bucket order. -/
def visibleTasks (ts : List RawRecord) (range : Int × Int) : List RawRecord :=
  (getFilteredDates ts range).flatMap
    (fun d => ((groupedData ts).lookup d).getD [])

/-! ### Fetch orchestration (src/App.tsx fetchData) -/

/-- The payload the report consumes: the data array of records. -/
abbrev ApiResp : Type := List RawRecord

/-- Component state of App after one fetchData run. -/
structure AppState : Type where
  data : Option ApiResp
  error : Option String
  usingCachedData : Bool
  cacheTimestamp : Option String
  loading : Bool
deriving Repr

/-- The degraded-mode banner text, parametrised by the locale rendering of
the cache timestamp. -/
def degradedErrorMsg (shownTime errMsg : String) : String :=
  "Unable to reach the API — showing cached data from " ++ shownTime ++ ".\n\n"
    ++ "Error: " ++ errMsg ++ "\n\n"
    ++ "The cached data may be outdated. Click \"Try Again\" to retry."

/-- Embedding of one fetchData run of src/App.tsx as a state transition.
fmt models new Date(t).toLocaleString(); now models the ISO timestamp taken
on success. The function returns the resulting component state together
with the two cache slots after the run. A successful fetch stores the
response and the timestamp; a failed fetch falls back to the cache when
both slots are present (and the timestamp non-empty, by truthiness),
otherwise surfaces the error with no data. -/
def fetchDataStep (fmt : String → String) (now : String)
    (result : Except String ApiResp)
    (cacheData : Option ApiResp) (cacheTime : Option String) :
    AppState × Option ApiResp × Option String :=
  match result with
  | .ok resp =>
    (⟨some resp, none, false, none, false⟩, some resp, some now)
  | .error e =>
    match cacheData, cacheTime with
    | some d, some t =>
      if t ≠ "" then
        (⟨some d, some (degradedErrorMsg (fmt t) e), true, some t, false⟩,
          some d, some t)
      else (⟨none, some e, false, none, false⟩, cacheData, cacheTime)
    | _, _ => (⟨none, some e, false, none, false⟩, cacheData, cacheTime)

/-! ### Concrete records used by the counterexample theorems -/

/-- Raw record carrying both the legacy status column and a plain status
key: the candidate-key priority list selects the legacy column, the
trailing spread then overwrites the canonical status with the plain key. -/
def c1Record : RawRecord :=
  [("Status - StatusId → Name", .vstr "Done"), ("status", .vstr "raw")]

/-- Enrichment record with one custom-field date in the current year and no
due date. -/
def c2Record : SRec :=
  ⟨.vstr "id0", none, .vundef, some [("move_in", .vnum 1740268800000)]⟩

/-- Fetched record whose workflow-status reference identifier is present
and non-null but empty, hence falsy. -/
def c3Record : SRec := ⟨.vstr "", none, .vundef, none⟩

/-- Fetched record with a truthy workflow-status reference identifier. -/
def c3TruthyRecord : SRec := ⟨.vstr "swts-1", none, .vundef, none⟩

/-- Enrichment record whose due date and single custom-field date both fall
in 2025. -/
def c2DueRecord : SRec :=
  ⟨.vstr "id0", none, .vnum 1740268800000, some [("move_in", .vnum 1740268800000)]⟩

/-- Year-and-month index of a valid date key, strictly monotone in the
lexicographic (year, month); 0 on unparseable keys. -/
def ymIndexOf (s : String) : Nat :=
  match parseYMD? s with
  | some (y, m, _) => y * 13 + m
  | none => 0

/-- Time index of a valid date key, strictly monotone in the lexicographic
(year, month, day); 0 on unparseable keys. -/
def timeIndexOf (s : String) : Int :=
  match parseYMD? s with
  | some (y, m, d) => (((y : Int)) * 13 + (m : Int)) * 32 + (d : Int)
  | none => 0

/-! ## General helper lemmas -/

theorem lookup_mem {β : Type} {l : List (String × β)} {a : String} {b : β}
    (h : l.lookup a = some b) : (a, b) ∈ l := by
  induction l with
  | nil => simp [List.lookup] at h
  | cons p rest ih =>
    rw [List.lookup] at h
    by_cases hk : a = p.1
    · simp only [hk, beq_self_eq_true] at h
      rw [Option.some_inj] at h
      subst h
      rw [hk]
      exact List.mem_cons_self _ _
    · have hb : (a == p.1) = false := by simp [beq_iff_eq, hk]
      rw [hb] at h
      exact List.mem_cons_of_mem _ (ih h)

theorem lookup_eq_none_iff {β : Type} {l : List (String × β)} {a : String} :
    l.lookup a = none ↔ a ∉ l.map Prod.fst := by
  induction l with
  | nil => simp [List.lookup]
  | cons p rest ih =>
    rw [List.lookup]
    by_cases hk : a = p.1
    · simp [hk]
    · have hb : (a == p.1) = false := by simp [beq_iff_eq, hk]
      rw [hb]
      simp only [List.map_cons, List.mem_cons]
      constructor
      · intro h hc
        rcases hc with hc | hc
        · exact hk hc
        · exact (ih.mp h) hc
      · intro h
        exact ih.mpr (fun hc => h (Or.inr hc))

theorem lookup_append_left {β : Type} {l₁ l₂ : List (String × β)} {a : String}
    (h : a ∈ l₁.map Prod.fst) : (l₁ ++ l₂).lookup a = l₁.lookup a := by
  induction l₁ with
  | nil => simp at h
  | cons p rest ih =>
    rw [List.cons_append, List.lookup, List.lookup]
    by_cases hk : a = p.1
    · simp [hk]
    · have hb : (a == p.1) = false := by simp [beq_iff_eq, hk]
      rw [hb]
      apply ih
      simp only [List.map_cons, List.mem_cons] at h
      rcases h with h | h
      · exact absurd h hk
      · exact h

/-! ## C10: totality and case analysis of formatEpoch -/

/-- C10: formatEpoch is total (it is a Lean function on all values): every
number at most 1000000000 and every value that is neither a number nor a
non-blank string yields the empty string; only numbers strictly above
1000000000 are rendered as short dates; non-blank strings pass through
unchanged. -/
theorem formatEpoch_totality (oy : Option Int) :
    (∀ n : Int, n ≤ 1000000000 → formatEpoch (.vnum n) oy = "")
  ∧ (∀ n : Int, n > 1000000000 →
      ∃ withYear, formatEpoch (.vnum n) oy = renderShortDate n withYear)
  ∧ (∀ s : String, jsTrim s ≠ "" → formatEpoch (.vstr s) oy = s)
  ∧ (∀ s : String, jsTrim s = "" → formatEpoch (.vstr s) oy = "")
  ∧ formatEpoch .vnull oy = "" ∧ formatEpoch .vundef oy = ""
  ∧ (∀ b, formatEpoch (.vbool b) oy = "") := by
  refine ⟨?_, ?_, ?_, ?_, rfl, rfl, fun b => rfl⟩
  · intro n hn
    simp only [formatEpoch]
    rw [if_neg (by omega)]
  · intro n hn
    exact ⟨_, by simp only [formatEpoch]; rw [if_pos (by omega)]⟩
  · intro s hs
    simp [formatEpoch, hs]
  · intro s hs
    simp [formatEpoch, hs]

/-- Witness for C10 at concrete inputs. -/
theorem formatEpoch_totality_witness :
    formatEpoch (.vnum 12) (some 2025) = ""
  ∧ formatEpoch (.vstr "kept") (some 2025) = "kept" :=
  ⟨(formatEpoch_totality (some 2025)).1 12 (by decide),
   (formatEpoch_totality (some 2025)).2.2.1 "kept" (by decide)⟩

/-! ## C3: the inclusion filter -/

/-- C3 (amended): the enriched output's record set is the fetched records
whose workflow-status reference identifier is truthy — non-null,
non-undefined, and neither the empty string, zero nor false; records with
a falsy identifier (in particular null or undefined) are discarded. -/
theorem relevantFilter_truthy (srs : List SRec) :
    (∀ sr, sr ∈ relevantFilter srs ↔
      sr ∈ srs ∧ truthy sr.serviceWorkflowToServiceStatusId = true)
  ∧ (∀ sr ∈ srs,
      (sr.serviceWorkflowToServiceStatusId = .vnull
        ∨ sr.serviceWorkflowToServiceStatusId = .vundef) →
      sr ∉ relevantFilter srs) := by
  constructor
  · intro sr
    exact List.mem_filter
  · intro sr _ hnull hmem
    have := (List.mem_filter.mp hmem).2
    rcases hnull with h | h <;> rw [h] at this <;> simp [truthy] at this

/-- Witness for C3 (amended) at concrete inputs. -/
theorem relevantFilter_truthy_witness :
    c3TruthyRecord ∈ relevantFilter [c3TruthyRecord] :=
  ((relevantFilter_truthy [c3TruthyRecord]).1 c3TruthyRecord).mpr
    ⟨by decide, by decide⟩

/-- C3 counterexample: a record whose identifier is present and non-null
(the empty string) is nevertheless dropped by the filter, against the
claim that no record carrying a present non-null identifier is dropped. -/
theorem relevantFilter_counterexample :
    c3Record.serviceWorkflowToServiceStatusId ≠ .vnull
  ∧ c3Record.serviceWorkflowToServiceStatusId ≠ .vundef
  ∧ relevantFilter [c3Record] = [] := by decide

/-! ## C4: the status fallback chain -/

theorem statusNameOf_unresolved (m : List (String × String)) (sr : SRec)
    (hunres : (m.lookup (swtsKey sr)).getD "" = "") :
    statusNameOf m sr =
      match sr.requestStatus with
      | some rs => if rs ≠ "" then formatStatus rs else "Unknown"
      | none => "Unknown" := by
  unfold statusNameOf
  rw [hunres]
  simp

/-- C4: when the reference lookup did not resolve to a non-empty name, the
output statusName follows the fallback chain: the fixed enum table entry
when the raw requestStatus is a known enum, the generic capital-splitting
formatter otherwise, and the literal Unknown when no raw status is
available; with the two documented instances. -/
theorem statusName_fallback_chain (m : List (String × String)) (sr : SRec)
    (hunres : (m.lookup (swtsKey sr)).getD "" = "") :
    (∀ rs lbl, sr.requestStatus = some rs → STATUS_DISPLAY.lookup rs = some lbl →
      statusNameOf m sr = lbl)
  ∧ (∀ rs, sr.requestStatus = some rs → rs ≠ "" → STATUS_DISPLAY.lookup rs = none →
      statusNameOf m sr = formatStatusGeneric rs)
  ∧ (sr.requestStatus = none → statusNameOf m sr = "Unknown")
  ∧ (sr.requestStatus = some "" → statusNameOf m sr = "Unknown")
  ∧ formatStatus "internalDispatch" = "Internal Dispatch"
  ∧ formatStatus "fooBar" = "Foo Bar" := by
  refine ⟨?_, ?_, ?_, ?_, by decide, by decide⟩
  · intro rs lbl hrs hlbl
    have hne : rs ≠ "" := by
      intro hc
      subst hc
      have hnone : STATUS_DISPLAY.lookup "" = none := by decide
      rw [hnone] at hlbl
      exact Option.noConfusion hlbl
    have hlblne : lbl ≠ "" := by
      intro hc
      subst hc
      have hm : ("" : String) ∈ STATUS_DISPLAY.map Prod.snd :=
        List.mem_map_of_mem _ (lookup_mem hlbl)
      revert hm
      decide
    rw [statusNameOf_unresolved m sr hunres, hrs]
    simp only [ne_eq, hne, not_false_eq_true, if_true]
    unfold formatStatus
    rw [hlbl]
    simp [hlblne]
  · intro rs hrs hne hnone
    rw [statusNameOf_unresolved m sr hunres, hrs]
    simp only [ne_eq, hne, not_false_eq_true, if_true]
    unfold formatStatus
    rw [hnone]
  · intro hrs
    rw [statusNameOf_unresolved m sr hunres, hrs]
  · intro hrs
    rw [statusNameOf_unresolved m sr hunres, hrs]
    simp

theorem takeWhile_of_all {p : Char → Bool} {l : List Char}
    (h : l.all p = true) : l.takeWhile p = l := by
  induction l with
  | nil => rfl
  | cons c cs ih =>
    rw [List.all_cons, Bool.and_eq_true] at h
    simp [List.takeWhile_cons, h.1, ih h.2]

theorem jsParseInt_digits (s : String) (hne : s.data ≠ [])
    (hd : s.data.all isDigitChar = true) :
    jsParseInt s = some ((charsToNat s.data : Nat) : Int) := by
  unfold jsParseInt
  rw [takeWhile_of_all hd]
  rw [if_neg (by simp [List.isEmpty_iff, hne])]

/-- Witness for C4 at concrete inputs: an empty resolution map leaves both
a table enum and an unknown enum to the fallback chain. -/
theorem statusName_fallback_chain_witness :
    statusNameOf [] ⟨.vstr "x", some "internalDispatch", .vundef, none⟩
      = "Internal Dispatch"
  ∧ statusNameOf [] ⟨.vstr "x", some "fooBar", .vundef, none⟩ = "Foo Bar" := by
  constructor
  · exact (statusName_fallback_chain [] _ (by decide)).1 "internalDispatch"
      "Internal Dispatch" rfl (by decide)
  · have h := (statusName_fallback_chain [] ⟨.vstr "x", some "fooBar", .vundef, none⟩
      (by decide)).2.1 "fooBar" rfl (by decide) (by decide)
    rw [h]
    decide

/-! ## C5: parseLocalDate -/

/-- Component-path behaviour of parseLocalDate on strict YYYY-MM-DD keys. -/
theorem parseLocalDate_components (s : String) (y m d : Nat)
    (h : parseYMD? s = some (y, m, d)) :
    parseLocalDate s = .components (some (y : Int)) (some ((m : Int) - 1))
      (some (d : Int)) := by
  unfold parseYMD? at h
  rcases hsplit : jsSplit '-' s with _ | ⟨ys, t1⟩
  · rw [hsplit] at h; exact absurd h (by simp)
  rcases t1 with _ | ⟨ms, t2⟩
  · rw [hsplit] at h; exact absurd h (by simp)
  rcases t2 with _ | ⟨ds, t3⟩
  · rw [hsplit] at h; exact absurd h (by simp)
  rcases t3 with _ | ⟨x, t4⟩
  case cons.cons.cons.cons =>
    rw [hsplit] at h; exact absurd h (by simp)
  rw [hsplit] at h
  simp only [] at h
  split at h
  case isFalse => exact absurd h (by simp)
  case isTrue hcond =>
    rw [Option.some_inj] at h
    rw [Prod.ext_iff, Prod.ext_iff] at h
    obtain ⟨hy, hm, hd⟩ := h
    simp only [] at hy hm hd
    simp only [Bool.and_eq_true, beq_iff_eq] at hcond
    obtain ⟨⟨⟨⟨⟨hy4, hyd⟩, hm2⟩, hmd⟩, hd2⟩, hdd⟩ := hcond
    have hsne : s ≠ "" := by
      intro hc
      subst hc
      rw [show jsSplit '-' "" = [""] from rfl] at hsplit
      exact absurd hsplit (by simp)
    have hsnd : s ≠ "No Date" := by
      intro hc
      subst hc
      rw [show jsSplit '-' "No Date" = ["No Date"] from rfl] at hsplit
      exact absurd hsplit (by simp)
    unfold parseLocalDate
    rw [if_neg (by simp [hsne, hsnd])]
    rw [hsplit]
    show LocalDateResult.components (jsParseInt ys)
      ((jsParseInt ms).map (fun x => x - 1)) (jsParseInt ds) = _
    rw [jsParseInt_digits ys (by intro hc; rw [hc] at hy4; exact absurd hy4 (by decide)) hyd]
    rw [jsParseInt_digits ms (by intro hc; rw [hc] at hm2; exact absurd hm2 (by decide)) hmd]
    rw [jsParseInt_digits ds (by intro hc; rw [hc] at hd2; exact absurd hd2 (by decide)) hdd]
    rw [hy, hm, hd]
    rfl

/-- C5 (amended): a string of the form YYYY-MM-DD parses to the date built
from its explicit components (the month zero-indexed, no timezone
involved); the empty string and the sentinel parse to the absent value; a
string that does not split into exactly three hyphen-separated parts falls
back to generic parsing of the string with the noon marker appended. (The
component path is keyed on the three-way split alone, not on the full
YYYY-MM-DD shape — see the counterexample.) -/
theorem parseLocalDate_spec :
    (∀ s y m d, parseYMD? s = some (y, m, d) →
      parseLocalDate s = .components (some (y : Int)) (some ((m : Int) - 1))
        (some (d : Int)))
  ∧ parseLocalDate "" = .nullDate
  ∧ parseLocalDate "No Date" = .nullDate
  ∧ (∀ s, s ≠ "" → s ≠ "No Date" → (jsSplit '-' s).length ≠ 3 →
      parseLocalDate s = .fallbackParse (s ++ "T12:00:00"))
  ∧ parseLocalDate "2025-02-23" = .components (some 2025) (some 1) (some 23) := by
  refine ⟨parseLocalDate_components, by decide, by decide, ?_, by decide⟩
  · intro s hne hnd hlen
    unfold parseLocalDate
    rw [if_neg (by simp [hne, hnd])]
    rcases hsplit : jsSplit '-' s with _ | ⟨a, t1⟩
    · rfl
    rcases t1 with _ | ⟨b, t2⟩
    · rfl
    rcases t2 with _ | ⟨c, t3⟩
    · rfl
    rcases t3 with _ | ⟨x, t4⟩
    · rw [hsplit] at hlen; exact absurd rfl hlen
    · rfl

/-- Witness for C5 at concrete inputs, including the documented
"2025-02-23" instance through the general component clause. -/
theorem parseLocalDate_spec_witness :
    parseLocalDate "2025-02-23"
      = .components (some ((2025 : Nat) : Int)) (some (((2 : Nat) : Int) - 1))
        (some ((23 : Nat) : Int))
  ∧ parseLocalDate "hello" = .fallbackParse "helloT12:00:00" :=
  ⟨parseLocalDate_spec.1 "2025-02-23" 2025 2 23 (by decide),
   parseLocalDate_spec.2.2.2.1 "hello" (by decide) (by decide) (by decide)⟩

/-- C5 counterexample: "1-2-3" is not of the form YYYY-MM-DD and is neither
empty nor the sentinel, yet parseLocalDate does not fall back to generic
parsing: any string with exactly two hyphens takes the component path. -/
theorem parseLocalDate_counterexample :
    ("1-2-3" : String) ≠ ""
  ∧ ("1-2-3" : String) ≠ "No Date"
  ∧ parseYMD? "1-2-3" = none
  ∧ parseLocalDate "1-2-3" = .components (some 1) (some 1) (some 3)
  ∧ parseLocalDate "1-2-3" ≠ .fallbackParse ("1-2-3" ++ "T12:00:00") := by
  decide

/-! ## C1: normalizeEntry passthrough and canonical fields -/

theorem lookup_assocSetFirst {β : Type} (l : List (String × β)) (k k' : String)
    (v : β) :
    (assocSetFirst l k v).lookup k' = if k' = k then some v else l.lookup k' := by
  induction l with
  | nil =>
    show ([(k, v)].lookup k') = _
    rw [List.lookup]
    by_cases hk : k' = k
    · simp [hk]
    · have hb : (k' == k) = false := by simp [beq_iff_eq, hk]
      simp [List.lookup, hb, hk]
  | cons p rest ih =>
    show ((if p.1 = k then (p.1, v) :: rest
      else (p.1, p.2) :: assocSetFirst rest k v).lookup k') = _
    by_cases hp : p.1 = k
    · rw [if_pos hp]
      by_cases hk : k' = k
      · subst hk
        simp [List.lookup, hp, beq_iff_eq]
      · rw [if_neg hk, List.lookup, List.lookup]
        have : (k' == p.1) = false := by simp [beq_iff_eq, hp ▸ hk]
        rw [this]
    · rw [if_neg hp]
      rw [List.lookup]
      by_cases hk' : k' = p.1
      · rw [if_neg (by rw [hk']; exact hp), List.lookup]
        simp [hk', beq_iff_eq]
      · have hb : (k' == p.1) = false := by simp [beq_iff_eq, hk']
        rw [hb, ih]
        by_cases hk : k' = k
        · rw [if_pos hk, if_pos hk]
        · rw [if_neg hk, if_neg hk, List.lookup, hb]

theorem lookup_jsSpread (base extra : RawRecord) (hnd : NodupKeys extra)
    (k : String) :
    (jsSpread base extra).lookup k =
      if (extra.lookup k).isSome then extra.lookup k else base.lookup k := by
  induction extra generalizing base with
  | nil => simp [jsSpread, List.lookup]
  | cons p rest ih =>
    have hnd' : NodupKeys rest := by
      have := hnd
      unfold NodupKeys keysOf at this ⊢
      rw [List.map_cons, List.nodup_cons] at this
      exact this.2
    have hknotin : p.1 ∉ rest.map Prod.fst := by
      have := hnd
      unfold NodupKeys keysOf at this
      rw [List.map_cons, List.nodup_cons] at this
      exact this.1
    show (jsSpread (assocSetFirst base p.1 p.2) rest).lookup k = _
    rw [ih _ hnd']
    by_cases hmem : (rest.lookup k).isSome
    · rw [if_pos hmem]
      have hkp : k ≠ p.1 := by
        intro hc
        subst hc
        rw [lookup_eq_none_iff.mpr hknotin] at hmem
        exact absurd hmem (by simp)
      rw [List.lookup]
      have hb : (k == p.1) = false := by simp [beq_iff_eq, hkp]
      rw [hb, if_pos hmem]
    · rw [if_neg hmem, lookup_assocSetFirst]
      rw [Option.not_isSome_iff_eq_none] at hmem
      by_cases hk : k = p.1
      · rw [if_pos hk, List.lookup]
        have hb : (k == p.1) = true := by simp [beq_iff_eq, hk]
        rw [hb]
        simp
      · rw [if_neg hk, List.lookup]
        have hb : (k == p.1) = false := by simp [beq_iff_eq, hk]
        rw [hb, hmem]
        simp

/-- C1 (amended): for a raw record with unique keys, every key not among
the sixteen canonical output keys is passed through verbatim; a canonical
field equals the value selected by its candidate-key priority list exactly
when the raw record carries no key of that canonical name — when it does,
the trailing spread overwrites the resolved canonical value with the raw
one. -/
theorem normalizeEntry_passthrough (e : RawRecord) (hnd : NodupKeys e) :
    (∀ k, k ∉ canonicalKeys → (normalizeEntry e).lookup k = e.lookup k)
  ∧ (∀ k, k ∈ canonicalKeys → e.lookup k = none →
      (normalizeEntry e).lookup k = (canonicalPairs e).lookup k)
  ∧ (∀ k, (e.lookup k).isSome → (normalizeEntry e).lookup k = e.lookup k) := by
  refine ⟨?_, ?_, ?_⟩
  · intro k hk
    rw [normalizeEntry, lookup_jsSpread _ _ hnd]
    by_cases hs : (e.lookup k).isSome
    · rw [if_pos hs]
    · rw [if_neg hs]
      rw [Option.not_isSome_iff_eq_none] at hs
      rw [hs]
      rw [lookup_eq_none_iff]
      intro hmem
      apply hk
      revert hmem
      have : (canonicalPairs e).map Prod.fst = canonicalKeys := by
        simp [canonicalPairs, canonicalKeys]
      rw [this]
      exact id
  · intro k _ hnone
    rw [normalizeEntry, lookup_jsSpread _ _ hnd, hnone]
    simp
  · intro k hs
    rw [normalizeEntry, lookup_jsSpread _ _ hnd, if_pos hs]

/-- Witness for C1 (amended) at concrete inputs: an unmapped key passes
through, and a canonical key absent from the raw record resolves by
priority. -/
theorem normalizeEntry_passthrough_witness :
    (normalizeEntry c1Record).lookup "Status - StatusId → Name"
      = c1Record.lookup "Status - StatusId → Name"
  ∧ (normalizeEntry c1Record).lookup "title"
      = (canonicalPairs c1Record).lookup "title" :=
  ⟨(normalizeEntry_passthrough c1Record (by decide)).1
      "Status - StatusId → Name" (by decide),
   (normalizeEntry_passthrough c1Record (by decide)).2.1 "title" (by decide)
      (by decide)⟩

/-- C1 counterexample: c1Record carries both the legacy status column
(which the priority list selects, value "Done") and a raw key named
exactly like the canonical field ("status", value "raw"); the output's
status is the raw value, so the passthrough does overwrite the resolved
canonical field. -/
theorem normalizeEntry_counterexample :
    (canonicalPairs c1Record).lookup "status" = some (.vstr "Done")
  ∧ (normalizeEntry c1Record).lookup "status" = some (.vstr "raw")
  ∧ JsVal.vstr "Done" ≠ JsVal.vstr "raw" := by decide

/-! ## C2: year elision in custom-field date formatting -/

theorem natToChars_ne_nil (n : Nat) : natToChars n ≠ [] := by
  unfold natToChars natToCharsCore
  by_cases h : n < 10
  · simp [h]
  · simp [h]

theorem intToString_length_pos (n : Int) : 0 < (intToString n).length := by
  unfold intToString
  by_cases h : n < 0
  · rw [if_pos h]
    show 0 < ('-' :: natToChars n.natAbs).length
    simp
  · rw [if_neg h]
    show 0 < (natToChars n.natAbs).length
    have := natToChars_ne_nil n.natAbs
    cases hc : natToChars n.natAbs with
    | nil => exact absurd hc this
    | cons c cs => simp

theorem renderShortDate_year_ne (ms : Int) :
    renderShortDate ms false ≠ renderShortDate ms true := by
  intro hc
  have hl := congrArg String.length hc
  unfold renderShortDate at hl
  simp only [if_pos, if_neg, Bool.false_eq_true, if_false, if_true,
    String.length_append] at hl
  have := intToString_length_pos (civilFromMs ms).1
  have h2 : (", " : String).length = 2 := rfl
  omega

theorem allSameYearOf_some_iff (cfs : List (String × JsVal)) (oy : Int) :
    allSameYearOf cfs (some oy) = true ↔
      ∀ p ∈ CUSTOM_FIELD_MAP, ∀ w : Int, cfs.lookup p.1 = some (.vnum w) →
        w > 1000000000 → yearOfMs w = oy := by
  unfold allSameYearOf
  rw [List.all_eq_true]
  constructor
  · intro h p hp w hw hbig
    have := h p hp
    rw [hw] at this
    simp only [] at this
    rw [if_pos hbig] at this
    exact beq_iff_eq.mp this
  · intro h p hp
    rcases hl : cfs.lookup p.1 with _ | v
    · simp
    · rcases v with _ | _ | b | w | s
      · simp
      · simp
      · simp
      · simp only []
        by_cases hbig : w > 1000000000
        · rw [if_pos hbig]
          exact beq_iff_eq.mpr (h p hp w hl hbig)
        · rw [if_neg hbig]
      · simp

theorem lookup_filterMap_build {L : List (String × String)}
    (hnd : (L.map Prod.snd).Nodup) {f : String → Option JsVal}
    {F : JsVal → String} {ck rk : String} (hmem : (ck, rk) ∈ L) {v0 : JsVal}
    (hf : f ck = some v0) :
    (L.filterMap (fun p => (f p.1).map (fun v => (p.2, F v)))).lookup rk
      = some (F v0) := by
  induction L with
  | nil => simp at hmem
  | cons q t ih =>
    rw [List.map_cons, List.nodup_cons] at hnd
    rw [List.filterMap_cons]
    rcases List.mem_cons.mp hmem with hq | ht
    · subst hq
      simp [hf, List.lookup]
    · have hrk : rk ∈ t.map Prod.snd := List.mem_map_of_mem Prod.snd ht
      have hqrk : q.2 ≠ rk := fun hc => hnd.1 (hc ▸ hrk)
      rcases hfq : f q.1 with _ | w
      · exact ih hnd.2 ht
      · show List.lookup rk ((q.2, F w) ::
          t.filterMap (fun p => (f p.1).map (fun v => (p.2, F v)))) = some (F v0)
        rw [List.lookup]
        have hb : (rk == q.2) = false := by
          simp only [beq_eq_false_iff_ne, ne_eq]
          exact fun hc => hqrk hc.symm
        rw [hb]
        exact ih hnd.2 ht

theorem lookup_flattenCF (cy : Int) (sr : SRec) (cfs : List (String × JsVal))
    (hcf : sr.customFields = some cfs) {ck rk : String}
    (hmap : (ck, rk) ∈ CUSTOM_FIELD_MAP) {v0 : JsVal}
    (hv : cfs.lookup ck = some v0) :
    (flattenCF cy sr).lookup rk = some (formatEpoch v0
      (if allSameYearOf cfs (omitYearOf cy sr) then omitYearOf cy sr
       else none)) := by
  have hrw : flattenCF cy sr = CUSTOM_FIELD_MAP.filterMap (fun p =>
      ((fun k => cfs.lookup k) p.1).map (fun v => (p.2, (fun w =>
        formatEpoch w (if allSameYearOf cfs (omitYearOf cy sr) then
          omitYearOf cy sr else none)) v))) := by
    unfold flattenCF
    rw [hcf]
  rw [hrw]
  exact @lookup_filterMap_build CUSTOM_FIELD_MAP (by decide)
    (fun k => cfs.lookup k)
    (fun w => formatEpoch w (if allSameYearOf cfs (omitYearOf cy sr) then
      omitYearOf cy sr else none))
    ck rk hmap v0 hv

theorem dueDateYearOf_vnum (sr : SRec) (t : Int) (hd : sr.dueDate = .vnum t) :
    dueDateYearOf sr = if t ≠ 0 then some (yearOfMs t) else none := by
  unfold dueDateYearOf
  rw [hd]

theorem dueDateYearOf_not_num (sr : SRec)
    (h : ∀ t : Int, sr.dueDate ≠ .vnum t) : dueDateYearOf sr = none := by
  unfold dueDateYearOf
  rcases hd : sr.dueDate with _ | _ | b | t | s
  · rfl
  · rfl
  · rfl
  · exact absurd hd (h t)
  · rfl

theorem omitYearOf_cases (cy : Int) (sr : SRec) :
    (omitYearOf cy sr = some cy
      ∧ (∃ t, sr.dueDate = .vnum t ∧ t ≠ 0 ∧ yearOfMs t = cy))
  ∨ (omitYearOf cy sr = none
      ∧ ¬ (∃ t, sr.dueDate = .vnum t ∧ t ≠ 0 ∧ yearOfMs t = cy)) := by
  unfold omitYearOf
  by_cases h : dueDateYearOf sr = some cy
  · left
    refine ⟨by rw [if_pos h], ?_⟩
    rcases hd : sr.dueDate with _ | _ | b | t | s
    · rw [dueDateYearOf_not_num sr (by rw [hd]; intro t hc; exact JsVal.noConfusion hc)] at h
      exact Option.noConfusion h
    · rw [dueDateYearOf_not_num sr (by rw [hd]; intro t hc; exact JsVal.noConfusion hc)] at h
      exact Option.noConfusion h
    · rw [dueDateYearOf_not_num sr (by rw [hd]; intro t hc; exact JsVal.noConfusion hc)] at h
      exact Option.noConfusion h
    · rw [dueDateYearOf_vnum sr t hd] at h
      by_cases ht0 : t ≠ 0
      · rw [if_pos ht0, Option.some_inj] at h
        exact ⟨t, rfl, ht0, h⟩
      · rw [if_neg ht0] at h
        exact Option.noConfusion h
    · rw [dueDateYearOf_not_num sr (by rw [hd]; intro t hc; exact JsVal.noConfusion hc)] at h
      exact Option.noConfusion h
  · right
    refine ⟨by rw [if_neg h], ?_⟩
    rintro ⟨t, hd, ht0, hy⟩
    apply h
    rw [dueDateYearOf_vnum sr t hd, if_pos ht0, hy]

theorem formatEpoch_vnum_big (v : Int) (oy : Option Int)
    (hbig : v > 1000000000) :
    formatEpoch (.vnum v) oy =
      renderShortDate v (!(omitYearTruthy oy) || yearOfMs v != oy.getD 0) := by
  simp only [formatEpoch]
  rw [if_pos hbig]

/-- C2 (amended): for a record with custom fields and a mapped
custom-field epoch value above the plausibility threshold, the rendered
short date omits the year exactly when the record's due date is a truthy
numeric epoch falling in the current year AND every custom-field epoch
value above the threshold also falls in the current year; otherwise (in
particular when the record has no numeric due date, or any of its dates
falls in another year) the year is included. -/
theorem flattenCF_year_elision (cy : Int) (hcy : 0 < cy) (sr : SRec)
    (cfs : List (String × JsVal)) (hcf : sr.customFields = some cfs)
    (ck rk : String) (hmap : (ck, rk) ∈ CUSTOM_FIELD_MAP)
    (v : Int) (hv : cfs.lookup ck = some (.vnum v)) (hbig : v > 1000000000) :
    (((∃ t, sr.dueDate = .vnum t ∧ t ≠ 0 ∧ yearOfMs t = cy)
        ∧ (∀ p ∈ CUSTOM_FIELD_MAP, ∀ w : Int, cfs.lookup p.1 = some (.vnum w) →
            w > 1000000000 → yearOfMs w = cy)) →
      (flattenCF cy sr).lookup rk = some (renderShortDate v false))
  ∧ ((¬ ((∃ t, sr.dueDate = .vnum t ∧ t ≠ 0 ∧ yearOfMs t = cy)
        ∧ (∀ p ∈ CUSTOM_FIELD_MAP, ∀ w : Int, cfs.lookup p.1 = some (.vnum w) →
            w > 1000000000 → yearOfMs w = cy))) →
      (flattenCF cy sr).lookup rk = some (renderShortDate v true))
  ∧ renderShortDate v false ≠ renderShortDate v true := by
  refine ⟨?_, ?_, renderShortDate_year_ne v⟩
  · rintro ⟨hdue, hall⟩
    rw [lookup_flattenCF cy sr cfs hcf hmap hv]
    rcases omitYearOf_cases cy sr with ⟨hoy, _⟩ | ⟨_, hno⟩
    · rw [hoy]
      rw [if_pos (by rw [allSameYearOf_some_iff]; exact hall)]
      rw [formatEpoch_vnum_big v (some cy) hbig]
      have hyv : yearOfMs v = cy := hall (ck, rk) hmap v hv hbig
      have hflag : (!(omitYearTruthy (some cy))
          || yearOfMs v != (some cy).getD 0) = false := by
        have h1 : omitYearTruthy (some cy) = true := by
          unfold omitYearTruthy
          simp only [bne_iff_ne, ne_eq, decide_eq_true_eq]
          omega
        rw [h1, hyv]
        simp
      rw [hflag]
    · exact absurd hdue hno
  · intro hneg
    rw [lookup_flattenCF cy sr cfs hcf hmap hv]
    have hyto : (if allSameYearOf cfs (omitYearOf cy sr) then omitYearOf cy sr
        else none) = none := by
      rcases omitYearOf_cases cy sr with ⟨hoy, hdue⟩ | ⟨hoy, _⟩
      · rw [hoy]
        have hnall : ¬ (∀ p ∈ CUSTOM_FIELD_MAP, ∀ w : Int,
            cfs.lookup p.1 = some (.vnum w) → w > 1000000000 →
              yearOfMs w = cy) := fun hall => hneg ⟨hdue, hall⟩
        rw [if_neg (by rw [allSameYearOf_some_iff]; exact hnall)]
      · rw [hoy]
        simp [allSameYearOf]
    rw [hyto]
    rw [formatEpoch_vnum_big v none hbig]
    rfl

/-- Witness for C2 (amended) at concrete inputs: with due date and
custom-field date both in 2025 and current year 2025 the year is elided. -/
theorem flattenCF_year_elision_witness :
    (flattenCF 2025 c2DueRecord).lookup "moveIn"
      = some (renderShortDate 1740268800000 false) := by
  have hall : ∀ p ∈ CUSTOM_FIELD_MAP, ∀ w : Int,
      List.lookup p.1 [("move_in", JsVal.vnum 1740268800000)]
        = some (.vnum w) → w > 1000000000 → yearOfMs w = 2025 := by
    intro p hp w hw hbig
    fin_cases hp <;> simp [List.lookup] at hw
    rw [← hw]
    decide
  exact (flattenCF_year_elision 2025 (by decide) c2DueRecord
    [("move_in", .vnum 1740268800000)] rfl "move_in" "moveIn" (by decide)
    1740268800000 (by decide) (by decide)).1
    ⟨⟨1740268800000, rfl, by decide, by decide⟩, hall⟩

/-- C2 counterexample: every date flattened for c2Record falls in the
current year 2025 (its single custom-field date has civil year 2025 and
there is no due date at all), yet the rendered value keeps the year —
the claimed exactly-when condition is violated because elision also
requires a truthy numeric due date in the current year. -/
theorem flattenCF_counterexample :
    yearOfMs 1740268800000 = 2025
  ∧ c2Record.dueDate = .vundef
  ∧ c2Record.customFields = some [("move_in", .vnum 1740268800000)]
  ∧ flattenCF 2025 c2Record = [("moveIn", "Feb 23, 2025")]
  ∧ renderShortDate 1740268800000 false = "Feb 23"
  ∧ ("Feb 23, 2025" : String) ≠ "Feb 23" := by decide

/-! ## C8: grouping by date is a lossless, order-preserving partition -/

theorem lookup_append {β : Type} (l₁ l₂ : List (String × β)) (k : String) :
    (l₁ ++ l₂).lookup k =
      match l₁.lookup k with
      | some v => some v
      | none => l₂.lookup k := by
  induction l₁ with
  | nil => simp [List.lookup]
  | cons p rest ih =>
    rw [List.cons_append, List.lookup, List.lookup]
    by_cases hk : k = p.1
    · have hb : (k == p.1) = true := by simp [beq_iff_eq, hk]
      rw [hb]
    · have hb : (k == p.1) = false := by simp [beq_iff_eq, hk]
      rw [hb, ih]

theorem assocSetFirst_of_absent {β : Type} (l : List (String × β)) (k : String)
    (v : β) (h : l.lookup k = none) : assocSetFirst l k v = l ++ [(k, v)] := by
  induction l with
  | nil => rfl
  | cons p rest ih =>
    rw [List.lookup] at h
    show (if p.1 = k then (p.1, v) :: rest
      else (p.1, p.2) :: assocSetFirst rest k v) = _
    by_cases hk : p.1 = k
    · rw [hk] at h
      simp at h
    · rw [if_neg hk]
      have hb : (k == p.1) = false := by
        simp [beq_iff_eq]
        exact fun hc => hk hc.symm
      rw [hb] at h
      rw [ih h, List.cons_append]

theorem keys_assocSetFirst_of_present {β : Type} (l : List (String × β))
    (k : String) (v : β) (h : (l.lookup k).isSome) :
    (assocSetFirst l k v).map Prod.fst = l.map Prod.fst := by
  induction l with
  | nil => simp [List.lookup] at h
  | cons p rest ih =>
    show ((if p.1 = k then (p.1, v) :: rest
      else (p.1, p.2) :: assocSetFirst rest k v).map Prod.fst) = _
    by_cases hk : p.1 = k
    · rw [if_pos hk]
      simp
    · rw [if_neg hk, List.map_cons, List.map_cons]
      rw [List.lookup] at h
      have hb : (k == p.1) = false := by
        simp [beq_iff_eq]
        exact fun hc => hk hc.symm
      rw [hb] at h
      rw [ih h]

theorem lookup_groupStep (acc : List (String × List RawRecord))
    (t : RawRecord) (k : String) :
    (groupStep acc t).lookup k =
      if k = dateKeyOf t then
        some (((acc.lookup (dateKeyOf t)).getD []) ++ [t])
      else acc.lookup k := by
  rcases hl : acc.lookup (dateKeyOf t) with _ | l
  · have hstep : groupStep acc t = acc ++ [(dateKeyOf t, [t])] := by
      simp only [groupStep]
      rw [hl]
    rw [hstep, lookup_append]
    by_cases hk : k = dateKeyOf t
    · rw [if_pos hk, hk, hl]
      simp [List.lookup]
    · rw [if_neg hk]
      rcases acc.lookup k with _ | v
      · rw [List.lookup]
        have hb : (k == dateKeyOf t) = false := by simp [beq_iff_eq, hk]
        rw [hb]
        rfl
      · rfl
  · have hstep : groupStep acc t = assocSetFirst acc (dateKeyOf t) (l ++ [t]) := by
      simp only [groupStep]
      rw [hl]
    rw [hstep, lookup_assocSetFirst]
    by_cases hk : k = dateKeyOf t
    · rw [if_pos hk, if_pos hk]
      simp
    · rw [if_neg hk, if_neg hk]

theorem lookup_foldl_groupStep (ts : List RawRecord)
    (acc : List (String × List RawRecord)) (k : String) :
    (ts.foldl groupStep acc).lookup k =
      match acc.lookup k with
      | some l => some (l ++ ts.filter (fun t => dateKeyOf t == k))
      | none =>
        if (ts.filter (fun t => dateKeyOf t == k)).isEmpty then none
        else some (ts.filter (fun t => dateKeyOf t == k)) := by
  induction ts generalizing acc with
  | nil =>
    rcases h : acc.lookup k with _ | l
    · simp [List.foldl, h]
    · simp [List.foldl, h]
  | cons t rest ih =>
    rw [List.foldl_cons, ih, lookup_groupStep, List.filter_cons]
    by_cases hk : dateKeyOf t = k
    · have hb : (dateKeyOf t == k) = true := by simp [beq_iff_eq, hk]
      rw [hb, if_pos (hk.symm), hk]
      rcases acc.lookup k with _ | l
      · simp
      · simp
    · have hb : (dateKeyOf t == k) = false := by simp [beq_iff_eq, hk]
      rw [hb, if_neg (fun hc : k = dateKeyOf t => hk hc.symm)]
      simp

theorem assocSetFirst_flatten_decomp {β : Type}
    (acc : List (String × List β)) (k : String) (l v : List β)
    (h : acc.lookup k = some l) :
    ∃ A B, ((acc.map Prod.snd).flatten = A ++ (l ++ B))
      ∧ (((assocSetFirst acc k v).map Prod.snd).flatten = A ++ (v ++ B)) := by
  induction acc with
  | nil => simp [List.lookup] at h
  | cons p rest ih =>
    rw [List.lookup] at h
    by_cases hk : k = p.1
    · have hb : (k == p.1) = true := by simp [beq_iff_eq, hk]
      rw [hb] at h
      rw [Option.some_inj] at h
      refine ⟨[], (rest.map Prod.snd).flatten, ?_, ?_⟩
      · rw [List.map_cons, List.flatten_cons, h]
        simp
      · show (((if p.1 = k then (p.1, v) :: rest
          else (p.1, p.2) :: assocSetFirst rest k v).map Prod.snd).flatten) = _
        rw [if_pos hk.symm]
        simp
    · have hb : (k == p.1) = false := by simp [beq_iff_eq, hk]
      rw [hb] at h
      obtain ⟨A, B, h1, h2⟩ := ih h
      refine ⟨p.2 ++ A, B, ?_, ?_⟩
      · rw [List.map_cons, List.flatten_cons, h1]
        simp [List.append_assoc]
      · show (((if p.1 = k then (p.1, v) :: rest
          else (p.1, p.2) :: assocSetFirst rest k v).map Prod.snd).flatten) = _
        rw [if_neg (fun hc => hk hc.symm)]
        rw [List.map_cons, List.flatten_cons, h2]
        simp [List.append_assoc]

theorem groupStep_flatten_perm (acc : List (String × List RawRecord))
    (t : RawRecord) :
    (((groupStep acc t).map Prod.snd).flatten).Perm
      ((acc.map Prod.snd).flatten ++ [t]) := by
  rcases hl : acc.lookup (dateKeyOf t) with _ | l
  · have hstep : groupStep acc t = acc ++ [(dateKeyOf t, [t])] := by
      simp only [groupStep]
      rw [hl]
    rw [hstep, List.map_append, List.flatten_append]
    simp
  · have hstep : groupStep acc t = assocSetFirst acc (dateKeyOf t) (l ++ [t]) := by
      simp only [groupStep]
      rw [hl]
    obtain ⟨A, B, h1, h2⟩ :=
      assocSetFirst_flatten_decomp acc (dateKeyOf t) l (l ++ [t]) hl
    rw [hstep, h2, h1]
    have he1 : A ++ ((l ++ [t]) ++ B) = (A ++ l) ++ ([t] ++ B) := by
      simp [List.append_assoc]
    have he2 : (A ++ (l ++ B)) ++ [t] = (A ++ l) ++ (B ++ [t]) := by
      simp [List.append_assoc]
    rw [he1, he2]
    exact List.Perm.append_left (A ++ l) List.perm_append_comm

theorem foldl_groupStep_flatten_perm (ts : List RawRecord)
    (acc : List (String × List RawRecord)) :
    (((ts.foldl groupStep acc).map Prod.snd).flatten).Perm
      ((acc.map Prod.snd).flatten ++ ts) := by
  induction ts generalizing acc with
  | nil => simp
  | cons t rest ih =>
    rw [List.foldl_cons]
    refine (ih (groupStep acc t)).trans ?_
    have h := (groupStep_flatten_perm acc t).append_right rest
    have he : ((acc.map Prod.snd).flatten ++ [t]) ++ rest
        = (acc.map Prod.snd).flatten ++ (t :: rest) := by simp
    rw [he] at h
    exact h

theorem groupedData_flatten_perm (ts : List RawRecord) :
    (((groupedData ts).map Prod.snd).flatten).Perm ts := by
  have := foldl_groupStep_flatten_perm ts []
  simpa [groupedData] using this

/-- C8: grouping is lossless and non-duplicating: over any entry list, the
bucket sizes sum to the input length; each bucket is exactly the input
subsequence with that date key (hence in input order, and each task lies in
exactly one bucket); a record with no date field lands in 'No Date'. -/
theorem groupedData_partition (ts : List RawRecord) :
    ((groupedData ts).map (fun p => p.2.length)).sum = ts.length
  ∧ (∀ k blk, (groupedData ts).lookup k = some blk →
      blk = ts.filter (fun t => dateKeyOf t == k))
  ∧ (∀ t ∈ ts, ∀ k blk, (groupedData ts).lookup k = some blk →
      (t ∈ blk ↔ dateKeyOf t = k))
  ∧ (∀ t : RawRecord, t.lookup "date" = none → dateKeyOf t = "No Date") := by
  refine ⟨?_, ?_, ?_, ?_⟩
  · have hperm := groupedData_flatten_perm ts
    have hlen := hperm.length_eq
    rw [List.length_flatten] at hlen
    rw [← hlen]
    rw [List.map_map]
    rfl
  · intro k blk h
    have := lookup_foldl_groupStep ts [] k
    rw [show ([] : List (String × List RawRecord)).lookup k = none from rfl] at this
    rw [groupedData] at h
    rw [h] at this
    by_cases he : (ts.filter (fun t => dateKeyOf t == k)).isEmpty
    · rw [if_pos he] at this
      exact Option.noConfusion this
    · rw [if_neg he] at this
      exact Option.some_inj.mp this
  · intro t ht k blk h
    have hblk : blk = ts.filter (fun t => dateKeyOf t == k) := by
      have := lookup_foldl_groupStep ts [] k
      rw [show ([] : List (String × List RawRecord)).lookup k = none from rfl] at this
      rw [groupedData] at h
      rw [h] at this
      by_cases he : (ts.filter (fun t => dateKeyOf t == k)).isEmpty
      · rw [if_pos he] at this
        exact Option.noConfusion this
      · rw [if_neg he] at this
        exact Option.some_inj.mp this
    rw [hblk]
    constructor
    · intro hmem
      have := (List.mem_filter.mp hmem).2
      exact beq_iff_eq.mp this
    · intro hk
      exact List.mem_filter.mpr ⟨ht, beq_iff_eq.mpr hk⟩
  · intro t h
    unfold dateKeyOf getField jsOr
    rw [h]
    rfl

/-- Witness for C8 at concrete inputs. -/
theorem groupedData_partition_witness :
    ((groupedData [[("date", JsVal.vstr "2025-02-23")], []]).map
      (fun p => p.2.length)).sum = 2
  ∧ dateKeyOf [] = "No Date" :=
  ⟨(groupedData_partition [[("date", JsVal.vstr "2025-02-23")], []]).1,
   (groupedData_partition []).2.2.2 [] rfl⟩

/-! ## C7: degraded state of the fetch orchestrator -/

/-- C7: when the fetch fails and a prior cache exists (both slots present,
non-blank timestamp), fetchData reaches the degraded state: the exposed
dataset is the cached value itself (no re-transformation), the exposed
timestamp is exactly the cache's stored timestamp, the triggering error is
surfaced in the banner message alongside the data, and the cached-data flag
is set; when no cache slot exists, it fails with the error and no data. -/
theorem fetchData_degraded_spec (fmt : String → String) (now e : String)
    (d : ApiResp) (t : String) (ht : t ≠ "") :
    (fetchDataStep fmt now (.error e) (some d) (some t)).1.data = some d
  ∧ (fetchDataStep fmt now (.error e) (some d) (some t)).1.cacheTimestamp = some t
  ∧ (fetchDataStep fmt now (.error e) (some d) (some t)).1.error
      = some (degradedErrorMsg (fmt t) e)
  ∧ (fetchDataStep fmt now (.error e) (some d) (some t)).1.usingCachedData = true
  ∧ (∀ e' : String, (fetchDataStep fmt now (.error e') none none).1.data = none
      ∧ (fetchDataStep fmt now (.error e') none none).1.error = some e') := by
  simp [fetchDataStep, ht]

/-- Witness for C7 at concrete inputs. -/
theorem fetchData_degraded_spec_witness :
    (fetchDataStep (fun s => s) "2026-01-01" (.error "boom") (some [])
      (some "2025-12-31")).1.data = some []
  ∧ (fetchDataStep (fun s => s) "2026-01-01" (.error "boom") (some [])
      (some "2025-12-31")).1.cacheTimestamp = some "2025-12-31" :=
  ⟨(fetchData_degraded_spec (fun s => s) "2026-01-01" "boom" [] "2025-12-31"
      (by decide)).1,
   (fetchData_degraded_spec (fun s => s) "2026-01-01" "boom" [] "2025-12-31"
      (by decide)).2.1⟩

/-! ## Sort machinery: the stable comparator sort -/

theorem insertSorted_perm (le : String → String → Bool) (x : String)
    (l : List String) : (insertSorted le x l).Perm (x :: l) := by
  induction l with
  | nil => exact List.Perm.refl _
  | cons y ys ih =>
    unfold insertSorted
    by_cases h : le x y = true
    · rw [if_pos h]
    · rw [if_neg h]
      refine (List.Perm.cons y ih).trans ?_
      exact List.Perm.swap x y ys

theorem jsSortBy_perm (le : String → String → Bool) (l : List String) :
    (jsSortBy le l).Perm l := by
  induction l with
  | nil => exact List.Perm.refl _
  | cons a rest ih =>
    show (insertSorted le a (jsSortBy le rest)).Perm (a :: rest)
    exact (insertSorted_perm le a (jsSortBy le rest)).trans (ih.cons a)

theorem insertSorted_pairwise (le : String → String → Bool) (x : String)
    (l : List String) (hl : l.Pairwise (fun a b => le a b = true))
    (htot : ∀ y ∈ l, le x y = true ∨ le y x = true)
    (htrans : ∀ z ∈ l, ∀ w ∈ l, le x z = true → le z w = true →
      le x w = true) :
    (insertSorted le x l).Pairwise (fun a b => le a b = true) := by
  induction l with
  | nil => simp [insertSorted]
  | cons y ys ih =>
    unfold insertSorted
    by_cases h : le x y = true
    · rw [if_pos h]
      refine List.Pairwise.cons ?_ hl
      intro b hb
      rcases List.mem_cons.mp hb with hb | hb
      · rw [hb]; exact h
      · have hyb : le y b = true := (List.pairwise_cons.mp hl).1 b hb
        exact htrans y (List.mem_cons_self _ _) b (List.mem_cons_of_mem _ hb) h hyb
    · rw [if_neg h]
      have hyx : le y x = true := by
        rcases htot y (List.mem_cons_self _ _) with hc | hc
        · exact absurd hc h
        · exact hc
      refine List.Pairwise.cons ?_ ?_
      · intro b hb
        have := (insertSorted_perm le x ys).mem_iff.mp hb
        rcases List.mem_cons.mp this with hb' | hb'
        · rw [hb']; exact hyx
        · exact (List.pairwise_cons.mp hl).1 b hb'
      · exact ih (List.pairwise_cons.mp hl).2
          (fun y' hy' => htot y' (List.mem_cons_of_mem _ hy'))
          (fun z hz w hw => htrans z (List.mem_cons_of_mem _ hz)
            w (List.mem_cons_of_mem _ hw))

theorem jsSortBy_pairwise (le : String → String → Bool) (l : List String)
    (hnd : l.Nodup)
    (htot : ∀ x ∈ l, ∀ y ∈ l, x ≠ y → le x y = true ∨ le y x = true)
    (htrans : ∀ x ∈ l, ∀ y ∈ l, ∀ z ∈ l, le x y = true → le y z = true →
      le x z = true) :
    (jsSortBy le l).Pairwise (fun a b => le a b = true) := by
  induction l with
  | nil => simp [jsSortBy]
  | cons a rest ih =>
    show (insertSorted le a (jsSortBy le rest)).Pairwise _
    have hsub : ∀ y ∈ jsSortBy le rest, y ∈ rest :=
      fun y hy => (jsSortBy_perm le rest).mem_iff.mp hy
    have hane : ∀ y ∈ rest, a ≠ y := by
      intro y hy hc
      exact (List.nodup_cons.mp hnd).1 (hc ▸ hy)
    refine insertSorted_pairwise le a (jsSortBy le rest) ?_ ?_ ?_
    · exact ih (List.nodup_cons.mp hnd).2
        (fun x hx y hy => htot x (List.mem_cons_of_mem _ hx)
          y (List.mem_cons_of_mem _ hy))
        (fun x hx y hy z hz => htrans x (List.mem_cons_of_mem _ hx)
          y (List.mem_cons_of_mem _ hy) z (List.mem_cons_of_mem _ hz))
    · intro y hy
      exact htot a (List.mem_cons_self _ _)
        y (List.mem_cons_of_mem _ (hsub y hy)) (hane y (hsub y hy))
    · intro z hz w hw
      exact htrans a (List.mem_cons_self _ _)
        z (List.mem_cons_of_mem _ (hsub z hz))
        w (List.mem_cons_of_mem _ (hsub w hw))

theorem insertSorted_of_le_head (le : String → String → Bool) (x : String)
    (l : List String) (h : ∀ y ∈ l, le x y = true) :
    insertSorted le x l = x :: l := by
  cases l with
  | nil => rfl
  | cons y ys =>
    unfold insertSorted
    rw [if_pos (h y (List.mem_cons_self _ _))]

theorem jsSortBy_of_pairwise (le : String → String → Bool) (l : List String)
    (hl : l.Pairwise (fun a b => le a b = true)) : jsSortBy le l = l := by
  induction l with
  | nil => rfl
  | cons a rest ih =>
    show insertSorted le a (jsSortBy le rest) = a :: rest
    rw [ih (List.pairwise_cons.mp hl).2]
    exact insertSorted_of_le_head le a rest (List.pairwise_cons.mp hl).1

/-! ## Facts about the date comparator and valid keys -/

theorem isValidDateKey_elim {s : String} (hv : isValidDateKey s = true) :
    ∃ y m d, parseYMD? s = some (y, m, d)
      ∧ 1 ≤ y ∧ 1 ≤ m ∧ m ≤ 12 ∧ 1 ≤ d ∧ d ≤ 31 := by
  unfold isValidDateKey at hv
  rcases hp : parseYMD? s with _ | ⟨y, m, d⟩
  · rw [hp] at hv
    exact absurd hv (by simp)
  · rw [hp] at hv
    simp only [Bool.and_eq_true, decide_eq_true_eq] at hv
    exact ⟨y, m, d, rfl, hv.1.1.1.1, hv.1.1.1.2, hv.1.1.2, hv.1.2, hv.2⟩

theorem valid_ne_noDate {s : String} (hv : isValidDateKey s = true) :
    s ≠ "No Date" := by
  intro hc
  subst hc
  exact absurd hv (by decide)

theorem jsTimeOf_valid {s : String} (hv : isValidDateKey s = true) :
    jsTimeOf s = timeIndexOf s := by
  obtain ⟨y, m, d, hp, _⟩ := isValidDateKey_elim hv
  unfold jsTimeOf
  rw [parseLocalDate_components s y m d hp]
  unfold componentsTimeVal timeIndexOf
  rw [hp]
  ring

theorem leDates_valid {a b : String} (hva : isValidDateKey a = true)
    (hvb : isValidDateKey b = true) :
    leDates a b = true ↔ timeIndexOf a ≤ timeIndexOf b := by
  unfold leDates cmpDates
  rw [if_neg (valid_ne_noDate hva), if_neg (valid_ne_noDate hvb)]
  rw [jsTimeOf_valid hva, jsTimeOf_valid hvb]
  simp only [decide_eq_true_eq]
  omega

theorem leDates_noDate_right {a : String} (ha : a ≠ "No Date") :
    leDates a "No Date" = true := by
  unfold leDates cmpDates
  rw [if_neg ha]
  simp

theorem leDates_noDate_left (a : String) : leDates "No Date" a = false := by
  unfold leDates cmpDates
  simp

/-! ## Keys of groupedData and properties of sortedDates -/

theorem keys_groupStep (acc : List (String × List RawRecord)) (t : RawRecord) :
    (groupStep acc t).map Prod.fst = acc.map Prod.fst
  ∨ ((groupStep acc t).map Prod.fst = acc.map Prod.fst ++ [dateKeyOf t]
      ∧ dateKeyOf t ∉ acc.map Prod.fst) := by
  rcases hl : acc.lookup (dateKeyOf t) with _ | l
  · right
    have hstep : groupStep acc t = acc ++ [(dateKeyOf t, [t])] := by
      simp only [groupStep]
      rw [hl]
    rw [hstep, List.map_append]
    exact ⟨rfl, lookup_eq_none_iff.mp hl⟩
  · left
    have hstep : groupStep acc t = assocSetFirst acc (dateKeyOf t) (l ++ [t]) := by
      simp only [groupStep]
      rw [hl]
    rw [hstep]
    exact keys_assocSetFirst_of_present acc _ _ (by rw [hl]; rfl)

theorem nodup_keys_foldl_groupStep (ts : List RawRecord)
    (acc : List (String × List RawRecord)) (h : (acc.map Prod.fst).Nodup) :
    ((ts.foldl groupStep acc).map Prod.fst).Nodup := by
  induction ts generalizing acc with
  | nil => exact h
  | cons t rest ih =>
    rw [List.foldl_cons]
    apply ih
    rcases keys_groupStep acc t with he | ⟨he, hnotin⟩
    · rw [he]; exact h
    · rw [he]
      simp [List.nodup_append, h, hnotin]

theorem nodupKeys_groupedData (ts : List RawRecord) :
    ((groupedData ts).map Prod.fst).Nodup :=
  nodup_keys_foldl_groupStep ts [] List.nodup_nil

theorem mem_groupKeys (ts : List RawRecord) (k : String)
    (h : k ∈ (groupedData ts).map Prod.fst) : ∃ t ∈ ts, dateKeyOf t = k := by
  have hsome : (groupedData ts).lookup k ≠ none :=
    fun hc => (lookup_eq_none_iff.mp hc) h
  rcases hl : (groupedData ts).lookup k with _ | blk
  · exact absurd hl hsome
  · have := lookup_foldl_groupStep ts [] k
    rw [show ([] : List (String × List RawRecord)).lookup k = none from rfl]
      at this
    rw [groupedData] at hl
    rw [hl] at this
    by_cases he : (ts.filter (fun t => dateKeyOf t == k)).isEmpty
    · rw [if_pos he] at this
      exact Option.noConfusion this
    · rcases hf : ts.filter (fun t => dateKeyOf t == k) with _ | ⟨t0, rest⟩
      · rw [hf] at he
        exact absurd rfl he
      · have ht0 : t0 ∈ ts.filter (fun t => dateKeyOf t == k) := by
          rw [hf]
          exact List.mem_cons_self _ _
        have := List.mem_filter.mp ht0
        exact ⟨t0, this.1, beq_iff_eq.mp this.2⟩

theorem groupKey_valid (ts : List RawRecord)
    (hval : ∀ t ∈ ts, dateKeyOf t = "No Date"
      ∨ isValidDateKey (dateKeyOf t) = true)
    (k : String) (h : k ∈ (groupedData ts).map Prod.fst) :
    k = "No Date" ∨ isValidDateKey k = true := by
  obtain ⟨t, ht, hk⟩ := mem_groupKeys ts k h
  rw [← hk]
  exact hval t ht

theorem sortedDates_perm (ts : List RawRecord) :
    (sortedDates ts).Perm ((groupedData ts).map Prod.fst) :=
  jsSortBy_perm leDates ((groupedData ts).map Prod.fst)

theorem sortedDates_nodup (ts : List RawRecord) : (sortedDates ts).Nodup :=
  (sortedDates_perm ts).nodup_iff.mpr (nodupKeys_groupedData ts)

theorem leDates_total_keys (ts : List RawRecord)
    (hval : ∀ t ∈ ts, dateKeyOf t = "No Date"
      ∨ isValidDateKey (dateKeyOf t) = true) :
    ∀ x ∈ (groupedData ts).map Prod.fst, ∀ y ∈ (groupedData ts).map Prod.fst,
      x ≠ y → leDates x y = true ∨ leDates y x = true := by
  intro x hx y hy hne
  rcases groupKey_valid ts hval x hx with hxn | hxv
  · rcases groupKey_valid ts hval y hy with hyn | hyv
    · exact absurd (hxn.trans hyn.symm) hne
    · right
      rw [hxn]
      exact leDates_noDate_right (valid_ne_noDate hyv)
  · rcases groupKey_valid ts hval y hy with hyn | hyv
    · left
      rw [hyn]
      exact leDates_noDate_right (valid_ne_noDate hxv)
    · rcases Int.le_total (timeIndexOf x) (timeIndexOf y) with h | h
      · exact Or.inl ((leDates_valid hxv hyv).mpr h)
      · exact Or.inr ((leDates_valid hyv hxv).mpr h)

theorem leDates_trans_keys (ts : List RawRecord)
    (hval : ∀ t ∈ ts, dateKeyOf t = "No Date"
      ∨ isValidDateKey (dateKeyOf t) = true) :
    ∀ x ∈ (groupedData ts).map Prod.fst, ∀ y ∈ (groupedData ts).map Prod.fst,
      ∀ z ∈ (groupedData ts).map Prod.fst,
      leDates x y = true → leDates y z = true → leDates x z = true := by
  intro x hx y hy z hz hxy hyz
  rcases groupKey_valid ts hval x hx with hxn | hxv
  · rw [hxn] at hxy
    rw [leDates_noDate_left] at hxy
    exact Bool.noConfusion hxy
  · rcases groupKey_valid ts hval z hz with hzn | hzv
    · rw [hzn]
      exact leDates_noDate_right (valid_ne_noDate hxv)
    · rcases groupKey_valid ts hval y hy with hyn | hyv
      · rw [hyn] at hyz
        rw [leDates_noDate_left] at hyz
        exact Bool.noConfusion hyz
      · rw [leDates_valid hxv hyv] at hxy
        rw [leDates_valid hyv hzv] at hyz
        exact (leDates_valid hxv hzv).mpr (hxy.trans hyz)

theorem sortedDates_pairwise (ts : List RawRecord)
    (hval : ∀ t ∈ ts, dateKeyOf t = "No Date"
      ∨ isValidDateKey (dateKeyOf t) = true) :
    (sortedDates ts).Pairwise (fun a b => leDates a b = true) :=
  jsSortBy_pairwise leDates ((groupedData ts).map Prod.fst)
    (nodupKeys_groupedData ts) (leDates_total_keys ts hval)
    (leDates_trans_keys ts hval)

theorem pairwise_noDate_decomp (s : List String)
    (hps : s.Pairwise (fun a b => leDates a b = true)) :
    s = s.filter (fun x => x ≠ "No Date")
      ++ (if "No Date" ∈ s then ["No Date"] else []) := by
  induction s with
  | nil => simp
  | cons a rest ih =>
    by_cases ha : a = "No Date"
    · subst ha
      rcases rest with _ | ⟨b, bs⟩
      · simp
      · have hle : leDates "No Date" b = true :=
          (List.pairwise_cons.mp hps).1 b (List.mem_cons_self _ _)
        rw [leDates_noDate_left] at hle
        exact Bool.noConfusion hle
    · rw [List.filter_cons]
      have hba : (a ≠ "No Date" : Bool) = true := by simp [ha]
      rw [if_pos hba]
      have hiff : ("No Date" ∈ a :: rest) ↔ ("No Date" ∈ rest) := by
        simp [List.mem_cons]
        intro hc
        exact absurd hc.symm ha
      have hrest := ih (List.pairwise_cons.mp hps).2
      by_cases hnd : "No Date" ∈ rest
      · rw [if_pos hnd] at hrest
        rw [if_pos (hiff.mpr hnd), List.cons_append, ← hrest]
      · rw [if_neg hnd, List.append_nil] at hrest
        rw [if_neg (fun hc => hnd (hiff.mp hc)), List.cons_append,
          List.append_nil, ← hrest]

theorem sortedDates_filter_valid (ts : List RawRecord)
    (hval : ∀ t ∈ ts, dateKeyOf t = "No Date"
      ∨ isValidDateKey (dateKeyOf t) = true) :
    ∀ x ∈ (sortedDates ts).filter (fun x => x ≠ "No Date"),
      isValidDateKey x = true := by
  intro x hx
  have h := List.mem_filter.mp hx
  have hk : x ∈ (groupedData ts).map Prod.fst :=
    (sortedDates_perm ts).mem_iff.mp h.1
  rcases groupKey_valid ts hval x hk with hn | hv
  · rw [hn] at h
    simp at h
  · exact hv

theorem sortedDates_filter_pairwise (ts : List RawRecord)
    (hval : ∀ t ∈ ts, dateKeyOf t = "No Date"
      ∨ isValidDateKey (dateKeyOf t) = true) :
    ((sortedDates ts).filter (fun x => x ≠ "No Date")).Pairwise
      (fun a b => timeIndexOf a ≤ timeIndexOf b) := by
  have hpw := (sortedDates_pairwise ts hval).filter (fun x => x ≠ "No Date")
  refine List.Pairwise.imp_of_mem ?_ hpw
  intro a b ha hb hle
  exact (leDates_valid (sortedDates_filter_valid ts hval a ha)
    (sortedDates_filter_valid ts hval b hb)).mp hle

/-! ## Decimal rendering and month labels -/

theorem charsToNat_append (l : List Char) (c : Char) :
    charsToNat (l ++ [c]) = charsToNat l * 10 + (c.toNat - 48) := by
  simp [charsToNat, List.foldl_append]

theorem charsToNat_natToCharsCore :
    ∀ fuel n, n < fuel → charsToNat (natToCharsCore fuel n) = n := by
  intro fuel
  induction fuel with
  | zero => omega
  | succ f ih =>
    intro n hn
    unfold natToCharsCore
    by_cases h : n < 10
    · rw [if_pos h]
      show charsToNat [Nat.digitChar n] = n
      interval_cases n <;> rfl
    · rw [if_neg h, charsToNat_append]
      have h1 : n / 10 < f := by omega
      rw [ih _ h1]
      have h2 : (Nat.digitChar (n % 10)).toNat - 48 = n % 10 := by
        have : n % 10 < 10 := Nat.mod_lt _ (by norm_num)
        interval_cases hm : (n % 10) <;> rfl
      omega

theorem charsToNat_natToChars (n : Nat) : charsToNat (natToChars n) = n :=
  charsToNat_natToCharsCore (n + 1) n (Nat.lt_succ_self n)

theorem natToChars_all_digits_core :
    ∀ fuel n, n < fuel → (natToCharsCore fuel n).all isDigitChar = true := by
  intro fuel
  induction fuel with
  | zero => omega
  | succ f ih =>
    intro n hn
    unfold natToCharsCore
    by_cases h : n < 10
    · rw [if_pos h]
      show ([Nat.digitChar n]).all isDigitChar = true
      interval_cases n <;> rfl
    · rw [if_neg h, List.all_append]
      have h1 : n / 10 < f := by omega
      rw [ih _ h1]
      have h2 : ([Nat.digitChar (n % 10)]).all isDigitChar = true := by
        have : n % 10 < 10 := Nat.mod_lt _ (by norm_num)
        interval_cases hm : (n % 10) <;> rfl
      rw [h2]
      rfl

theorem natToChars_all_digits (n : Nat) :
    (natToChars n).all isDigitChar = true :=
  natToChars_all_digits_core (n + 1) n (Nat.lt_succ_self n)

theorem labelInfo_of_data {s : String} {c1 c2 c3 : Char} (y m : Nat)
    (hs : s.data = c1 :: c2 :: c3 :: ' ' :: natToChars y)
    (hmon : monthNum (String.mk [c1, c2, c3]) = some m) :
    labelInfo s = some (y, m) := by
  unfold labelInfo
  rw [hs]
  show (if ' ' = ' ' ∧ natToChars y ≠ [] ∧ (natToChars y).all isDigitChar then
      match monthNum (String.mk [c1, c2, c3]) with
      | some m' => some (charsToNat (natToChars y), m')
      | none => none
    else none) = some (y, m)
  rw [if_pos ⟨rfl, natToChars_ne_nil y, natToChars_all_digits y⟩, hmon]
  show some (charsToNat (natToChars y), m) = some (y, m)
  rw [charsToNat_natToChars]

theorem labelInfo_monthLabel (y m : Nat) (h1 : 1 ≤ m) (h2 : m ≤ 12) :
    labelInfo (monthLabel y m) = some (y, m) := by
  interval_cases m <;>
    exact labelInfo_of_data y _
      (by simp only [monthLabel]
          rw [String.data_append, String.data_append]
          rfl)
      (by decide)

theorem monthLabel_inj {y m y' m' : Nat} (h1 : 1 ≤ m) (h2 : m ≤ 12)
    (h1' : 1 ≤ m') (h2' : m' ≤ 12)
    (h : monthLabel y m = monthLabel y' m') : y = y' ∧ m = m' := by
  have := labelInfo_monthLabel y m h1 h2
  rw [h, labelInfo_monthLabel y' m' h1' h2'] at this
  rw [Option.some_inj, Prod.ext_iff] at this
  exact ⟨this.1.symm, this.2.symm⟩

theorem monthLabel_ne_noDate (y m : Nat) (h1 : 1 ≤ m) (h2 : m ≤ 12) :
    monthLabel y m ≠ "No Date" := by
  intro hc
  have := labelInfo_monthLabel y m h1 h2
  rw [hc] at this
  rw [show labelInfo "No Date" = none from rfl] at this
  exact Option.noConfusion this

theorem monthTimeOf_monthLabel (y m : Nat) (h1 : 1 ≤ m) (h2 : m ≤ 12) :
    monthTimeOf (monthLabel y m) = ((y : Int) * 13 + (m : Int)) * 32 + 1 := by
  unfold monthTimeOf
  rw [labelInfo_monthLabel y m h1 h2]

theorem monthLabelOfDate_valid {s : String} (hv : isValidDateKey s = true) :
    ∃ y m d, parseYMD? s = some (y, m, d)
      ∧ monthLabelOfDate s = monthLabel y m
      ∧ timeIndexOf s = ((y : Int) * 13 + (m : Int)) * 32 + (d : Int)
      ∧ 1 ≤ y ∧ 1 ≤ m ∧ m ≤ 12 ∧ 1 ≤ d ∧ d ≤ 31 := by
  obtain ⟨y, m, d, hp, hy, hm1, hm2, hd1, hd2⟩ := isValidDateKey_elim hv
  refine ⟨y, m, d, hp, ?_, ?_, hy, hm1, hm2, hd1, hd2⟩
  · unfold monthLabelOfDate
    rw [hp]
  · unfold timeIndexOf
    rw [hp]

theorem monthTime_mono_of_time {a b : String} (hva : isValidDateKey a = true)
    (hvb : isValidDateKey b = true)
    (hle : timeIndexOf a ≤ timeIndexOf b) :
    monthTimeOf (monthLabelOfDate a) ≤ monthTimeOf (monthLabelOfDate b) := by
  obtain ⟨ya, ma, da, _, hla, hta, _, hma1, hma2, hda1, hda2⟩ :=
    monthLabelOfDate_valid hva
  obtain ⟨yb, mb, db, _, hlb, htb, _, hmb1, hmb2, hdb1, hdb2⟩ :=
    monthLabelOfDate_valid hvb
  rw [hla, hlb, monthTimeOf_monthLabel ya ma hma1 hma2,
    monthTimeOf_monthLabel yb mb hmb1 hmb2]
  rw [hta, htb] at hle
  omega

theorem monthLabel_eq_of_monthTime_eq {a b : String}
    (hva : isValidDateKey a = true) (hvb : isValidDateKey b = true)
    (heq : monthTimeOf (monthLabelOfDate a) = monthTimeOf (monthLabelOfDate b)) :
    monthLabelOfDate a = monthLabelOfDate b := by
  obtain ⟨ya, ma, da, _, hla, _, _, hma1, hma2, _, _⟩ :=
    monthLabelOfDate_valid hva
  obtain ⟨yb, mb, db, _, hlb, _, _, hmb1, hmb2, _, _⟩ :=
    monthLabelOfDate_valid hvb
  rw [hla, hlb, monthTimeOf_monthLabel ya ma hma1 hma2,
    monthTimeOf_monthLabel yb mb hmb1 hmb2] at heq
  have hy : ya = yb ∧ ma = mb := by
    constructor <;> omega
  rw [hla, hlb, hy.1, hy.2]

theorem monthLabelOfDate_ne_noDate {s : String}
    (hv : isValidDateKey s = true) : monthLabelOfDate s ≠ "No Date" := by
  obtain ⟨y, m, d, _, hl, _, _, hm1, hm2, _, _⟩ := monthLabelOfDate_valid hv
  rw [hl]
  exact monthLabel_ne_noDate y m hm1 hm2

/-! ## Structural helpers for the month-groups fold -/

theorem getLast?_decomp {β : Type} {l : List β} {z : β}
    (h : l.getLast? = some z) : ∃ A, l = A ++ [z] := by
  induction l with
  | nil => exact Option.noConfusion h
  | cons a t ih =>
    rcases t with _ | ⟨b, bs⟩
    · rw [show ([a] : List β).getLast? = some a from rfl] at h
      rw [Option.some_inj] at h
      exact ⟨[], by rw [h]; rfl⟩
    · rw [List.getLast?_cons_cons] at h
      obtain ⟨A, hA⟩ := ih h
      exact ⟨a :: A, by rw [List.cons_append, ← hA]⟩

theorem pairwise_getLast {R : String → String → Prop} {l : List String}
    {x z : String} (hp : l.Pairwise R) (hx : x ∈ l)
    (hz : l.getLast? = some z) : x = z ∨ R x z := by
  obtain ⟨A, hA⟩ := getLast?_decomp hz
  subst hA
  rcases List.mem_append.mp hx with hxa | hxz
  · right
    exact (List.pairwise_append.mp hp).2.2 x hxa z (List.mem_cons_self _ _)
  · left
    rcases List.mem_cons.mp hxz with h | h
    · exact h
    · exact absurd h (List.not_mem_nil x)

theorem nodup_fst_mem_eq {β : Type} {acc : List (String × β)} {k : String}
    {l1 l2 : β} (hk : (acc.map Prod.fst).Nodup)
    (h1 : (k, l1) ∈ acc) (h2 : (k, l2) ∈ acc) : l1 = l2 := by
  induction acc with
  | nil => exact absurd h1 (List.not_mem_nil _)
  | cons p rest ih =>
    rw [List.map_cons, List.nodup_cons] at hk
    rcases List.mem_cons.mp h1 with he1 | hm1
    · rcases List.mem_cons.mp h2 with he2 | hm2
      · rw [← he1] at he2
        exact (Prod.ext_iff.mp he2).2.symm
      · exfalso
        apply hk.1
        have hp : p.1 = k := by rw [← he1]
        rw [hp]
        exact List.mem_map_of_mem Prod.fst hm2
    · rcases List.mem_cons.mp h2 with he2 | hm2
      · exfalso
        apply hk.1
        have hp : p.1 = k := by rw [← he2]
        rw [hp]
        exact List.mem_map_of_mem Prod.fst hm1
      · exact ih hk.2 hm1 hm2

theorem assocSetFirst_append_absent {β : Type} (A B : List (String × β))
    (k : String) (v : β) (h : A.lookup k = none) :
    assocSetFirst (A ++ B) k v = A ++ assocSetFirst B k v := by
  induction A with
  | nil => rfl
  | cons p rest ih =>
    rw [List.lookup] at h
    by_cases hk : k = p.1
    · rw [hk] at h
      simp at h
    · have hb : (k == p.1) = false := by simp [beq_iff_eq, hk]
      rw [hb] at h
      rw [List.cons_append]
      show (if p.1 = k then (p.1, v) :: (rest ++ B)
        else (p.1, p.2) :: assocSetFirst (rest ++ B) k v) = _
      rw [if_neg (fun hc => hk hc.symm), ih h, List.cons_append]

theorem strict_pairwise_nodup {l : List String}
    (h : l.Pairwise (fun a b => monthTimeOf a < monthTimeOf b)) : l.Nodup :=
  h.imp (fun hlt heq => by rw [heq] at hlt; exact absurd hlt (lt_irrefl _))

theorem getLast?_some_of_ne_nil {β : Type} :
    ∀ (l : List β), l ≠ [] → ∃ z, l.getLast? = some z
  | [], h => absurd rfl h
  | [a], _ => ⟨a, rfl⟩
  | a :: b :: t, _ => by
    rw [List.getLast?_cons_cons]
    exact getLast?_some_of_ne_nil (b :: t) (by simp)

/-! ## The month-groups fold on a sorted run of valid date keys -/

theorem foldl_addMonth_spec (v : List String) :
    ∀ (acc : List (String × List String)),
    (∀ x ∈ v, isValidDateKey x = true) →
    v.Pairwise (fun a b => timeIndexOf a ≤ timeIndexOf b) →
    ((acc.map Prod.fst).Pairwise (fun a b => monthTimeOf a < monthTimeOf b)) →
    (∀ p ∈ acc, ∀ x ∈ p.2,
      monthLabelOfDate x = p.1 ∧ isValidDateKey x = true) →
    (∀ x ∈ v, ∀ kl, acc.getLast? = some kl →
      monthTimeOf kl.1 ≤ monthTimeOf (monthLabelOfDate x)) →
    (∀ k ∈ acc.map Prod.fst,
      ∃ w, isValidDateKey w = true ∧ k = monthLabelOfDate w) →
    (((v.foldl addMonth acc).map Prod.fst).Pairwise
        (fun a b => monthTimeOf a < monthTimeOf b)
      ∧ ((v.foldl addMonth acc).map Prod.snd).flatten
          = (acc.map Prod.snd).flatten ++ v
      ∧ (∀ p ∈ v.foldl addMonth acc, ∀ x ∈ p.2,
          monthLabelOfDate x = p.1 ∧ isValidDateKey x = true)
      ∧ (∀ k ∈ (v.foldl addMonth acc).map Prod.fst,
          ∃ w, isValidDateKey w = true ∧ k = monthLabelOfDate w)) := by
  induction v with
  | nil =>
    intro acc _ _ hk1 hk2 _ hk5
    exact ⟨hk1, by simp, hk2, hk5⟩
  | cons x rest ih =>
    intro acc hvv hsort hk1 hk2 hk4 hk5
    have hx : isValidDateKey x = true := hvv x (List.mem_cons_self _ _)
    have hvrest : ∀ x' ∈ rest, isValidDateKey x' = true :=
      fun x' hx' => hvv x' (List.mem_cons_of_mem _ hx')
    have hsrest : rest.Pairwise (fun a b => timeIndexOf a ≤ timeIndexOf b) :=
      (List.pairwise_cons.mp hsort).2
    have hxrest : ∀ x' ∈ rest, timeIndexOf x ≤ timeIndexOf x' :=
      (List.pairwise_cons.mp hsort).1
    rw [List.foldl_cons]
    rcases hl : acc.lookup (monthLabelOfDate x) with _ | l
    · -- the label of x is fresh: a new month group is appended
      have hstep : addMonth acc x = acc ++ [(monthLabelOfDate x, [x])] := by
        simp only [addMonth]
        rw [if_neg (valid_ne_noDate hx), hl]
      have hnotin : monthLabelOfDate x ∉ acc.map Prod.fst :=
        lookup_eq_none_iff.mp hl
      have hklt : ∀ k' ∈ acc.map Prod.fst,
          monthTimeOf k' < monthTimeOf (monthLabelOfDate x) := by
        intro k' hk'
        have hne : acc ≠ [] := by
          intro hc
          rw [hc] at hk'
          exact absurd hk' (List.not_mem_nil _)
        obtain ⟨kl, hgl⟩ := getLast?_some_of_ne_nil acc hne
        have hkeysLast : (acc.map Prod.fst).getLast? = some kl.1 := by
          rw [List.getLast?_map, hgl]
          rfl
        have hle := hk4 x (List.mem_cons_self _ _) kl hgl
        rcases pairwise_getLast hk1 hk' hkeysLast with heq | hlt
        · rcases lt_or_eq_of_le (heq ▸ hle : monthTimeOf k'
            ≤ monthTimeOf (monthLabelOfDate x)) with hlt2 | heq2
          · exact hlt2
          · exfalso
            obtain ⟨w, hw, hkw⟩ := hk5 k' hk'
            rw [hkw] at heq2
            have := monthLabel_eq_of_monthTime_eq hw hx heq2
            apply hnotin
            rw [← this, ← hkw]
            exact hk'
        · exact lt_of_lt_of_le hlt hle
      have hK1' : (((acc ++ [(monthLabelOfDate x, [x])]).map Prod.fst).Pairwise
          (fun a b => monthTimeOf a < monthTimeOf b)) := by
        rw [List.map_append]
        rw [List.pairwise_append]
        refine ⟨hk1, by simp, ?_⟩
        intro a ha b hb
        rw [show ([(monthLabelOfDate x, [x])].map Prod.fst)
          = [monthLabelOfDate x] from rfl] at hb
        rcases List.mem_cons.mp hb with hb | hb
        · rw [hb]
          exact hklt a ha
        · exact absurd hb (List.not_mem_nil _)
      have hK2' : ∀ p ∈ acc ++ [(monthLabelOfDate x, [x])], ∀ y ∈ p.2,
          monthLabelOfDate y = p.1 ∧ isValidDateKey y = true := by
        intro p hp y hy
        rcases List.mem_append.mp hp with hp | hp
        · exact hk2 p hp y hy
        · rcases List.mem_cons.mp hp with hp | hp
          · rw [hp] at hy ⊢
            rcases List.mem_cons.mp hy with hy | hy
            · rw [hy]
              exact ⟨rfl, hx⟩
            · exact absurd hy (List.not_mem_nil _)
          · exact absurd hp (List.not_mem_nil _)
      have hK4' : ∀ x' ∈ rest, ∀ kl,
          (acc ++ [(monthLabelOfDate x, [x])]).getLast? = some kl →
          monthTimeOf kl.1 ≤ monthTimeOf (monthLabelOfDate x') := by
        intro x' hx' kl hgl
        rw [List.getLast?_concat] at hgl
        rw [Option.some_inj] at hgl
        rw [← hgl]
        exact monthTime_mono_of_time hx (hvrest x' hx') (hxrest x' hx')
      have hK5' : ∀ k ∈ (acc ++ [(monthLabelOfDate x, [x])]).map Prod.fst,
          ∃ w, isValidDateKey w = true ∧ k = monthLabelOfDate w := by
        intro k hk
        rw [List.map_append] at hk
        rcases List.mem_append.mp hk with hk | hk
        · exact hk5 k hk
        · rcases List.mem_cons.mp hk with hk | hk
          · exact ⟨x, hx, hk⟩
          · exact absurd hk (List.not_mem_nil _)
      obtain ⟨R1, R2, R3, R5⟩ :=
        ih (acc ++ [(monthLabelOfDate x, [x])]) hvrest hsrest hK1' hK2' hK4' hK5'
      rw [hstep]
      refine ⟨R1, ?_, R3, R5⟩
      rw [R2, List.map_append, List.flatten_append]
      simp
    · -- the label of x is the last month group: x is appended to it
      have hmem : (monthLabelOfDate x, l) ∈ acc := lookup_mem hl
      have hkin : monthLabelOfDate x ∈ acc.map Prod.fst :=
        List.mem_map_of_mem Prod.fst hmem
      have hne : acc ≠ [] := by
        intro hc
        rw [hc] at hkin
        exact absurd hkin (List.not_mem_nil _)
      obtain ⟨kl, hgl⟩ := getLast?_some_of_ne_nil acc hne
      have hkeysLast : (acc.map Prod.fst).getLast? = some kl.1 := by
        rw [List.getLast?_map, hgl]
        rfl
      have hklast : kl.1 = monthLabelOfDate x := by
        rcases pairwise_getLast hk1 hkin hkeysLast with heq | hlt
        · exact heq.symm
        · exfalso
          have hle := hk4 x (List.mem_cons_self _ _) kl hgl
          omega
      obtain ⟨A, hA⟩ := getLast?_decomp hgl
      have hklA : kl ∈ acc := by
        rw [hA]
        exact List.mem_append.mpr (Or.inr (List.mem_cons_self _ _))
      have hnd : (acc.map Prod.fst).Nodup := strict_pairwise_nodup hk1
      have hkl2 : kl.2 = l := by
        refine nodup_fst_mem_eq hnd ?_ hmem
        rw [← hklast]
        exact (show (kl.1, kl.2) ∈ acc from hklA)
      have hAnotin : A.lookup (monthLabelOfDate x) = none := by
        rw [lookup_eq_none_iff]
        intro hc
        rw [hA, List.map_append] at hnd
        have hdisj := (List.nodup_append.mp hnd).2.2
        exact hdisj hc (by
          rw [show ([kl].map Prod.fst) = [kl.1] from rfl, hklast]
          exact List.mem_cons_self _ _)
      have hstep : addMonth acc x
          = A ++ [(kl.1, l ++ [x])] := by
        simp only [addMonth]
        rw [if_neg (valid_ne_noDate hx), hl]
        show assocSetFirst acc (monthLabelOfDate x) (l ++ [x]) = _
        rw [hA, assocSetFirst_append_absent A [kl] _ _ hAnotin]
        have : assocSetFirst [kl] (monthLabelOfDate x) (l ++ [x])
            = [(kl.1, l ++ [x])] := by
          show (if kl.1 = monthLabelOfDate x then (kl.1, l ++ [x]) :: []
            else (kl.1, kl.2) :: assocSetFirst [] (monthLabelOfDate x) (l ++ [x]))
            = [(kl.1, l ++ [x])]
          rw [if_pos hklast]
        rw [this]
      have hkeysEq : (A ++ [(kl.1, l ++ [x])]).map Prod.fst
          = acc.map Prod.fst := by
        rw [hA, List.map_append, List.map_append]
        rfl
      have hK1' : (((A ++ [(kl.1, l ++ [x])]).map Prod.fst).Pairwise
          (fun a b => monthTimeOf a < monthTimeOf b)) := by
        rw [hkeysEq]
        exact hk1
      have hK2' : ∀ p ∈ A ++ [(kl.1, l ++ [x])], ∀ y ∈ p.2,
          monthLabelOfDate y = p.1 ∧ isValidDateKey y = true := by
        intro p hp y hy
        rcases List.mem_append.mp hp with hp | hp
        · exact hk2 p (by rw [hA]; exact List.mem_append.mpr (Or.inl hp)) y hy
        · rcases List.mem_cons.mp hp with hp | hp
          · rw [hp] at hy ⊢
            rcases List.mem_append.mp hy with hy | hy
            · have := hk2 (monthLabelOfDate x, l) hmem y hy
              rw [hklast]
              exact this
            · rcases List.mem_cons.mp hy with hy | hy
              · rw [hy, hklast]
                exact ⟨rfl, hx⟩
              · exact absurd hy (List.not_mem_nil _)
          · exact absurd hp (List.not_mem_nil _)
      have hK4' : ∀ x' ∈ rest, ∀ kl',
          (A ++ [(kl.1, l ++ [x])]).getLast? = some kl' →
          monthTimeOf kl'.1 ≤ monthTimeOf (monthLabelOfDate x') := by
        intro x' hx' kl' hgl'
        rw [List.getLast?_concat] at hgl'
        rw [Option.some_inj] at hgl'
        rw [← hgl']
        show monthTimeOf kl.1 ≤ _
        rw [hklast]
        exact monthTime_mono_of_time hx (hvrest x' hx') (hxrest x' hx')
      have hK5' : ∀ k ∈ (A ++ [(kl.1, l ++ [x])]).map Prod.fst,
          ∃ w, isValidDateKey w = true ∧ k = monthLabelOfDate w := by
        rw [hkeysEq]
        exact hk5
      obtain ⟨R1, R2, R3, R5⟩ :=
        ih (A ++ [(kl.1, l ++ [x])]) hvrest hsrest hK1' hK2' hK4' hK5'
      rw [hstep]
      refine ⟨R1, ?_, R3, R5⟩
      rw [R2]
      have hflat : ((A ++ [(kl.1, l ++ [x])]).map Prod.snd).flatten
          = (acc.map Prod.snd).flatten ++ [x] := by
        rw [hA, List.map_append, List.map_append, List.flatten_append,
          List.flatten_append]
        show (A.map Prod.snd).flatten ++ ((l ++ [x]) ++ [])
          = ((A.map Prod.snd).flatten ++ (kl.2 ++ [])) ++ [x]
        rw [hkl2]
        simp [List.append_assoc]
      rw [hflat]
      simp

/-! ## Assembly of the month pipeline -/

theorem map_lookup_getD {β : Type} (M : List (String × β)) (d : β)
    (hnd : (M.map Prod.fst).Nodup) :
    (M.map Prod.fst).map (fun k => (M.lookup k).getD d) = M.map Prod.snd := by
  induction M with
  | nil => rfl
  | cons p rest ih =>
    rw [List.map_cons, List.map_cons, List.map_cons]
    rw [List.map_cons, List.nodup_cons] at hnd
    congr 1
    · rw [List.lookup]
      rw [show (p.1 == p.1) = true from by simp]
      rfl
    · rw [← ih hnd.2]
      apply List.map_congr_left
      intro k hk
      rw [List.lookup]
      have hb : (k == p.1) = false := by
        simp only [beq_eq_false_iff_ne, ne_eq]
        intro hc
        exact hnd.1 (hc ▸ hk)
      rw [hb]

theorem leMonths_of (a b : String) (ha : a ≠ "No Date")
    (h : b = "No Date" ∨ monthTimeOf a ≤ monthTimeOf b) :
    leMonths a b = true := by
  unfold leMonths cmpMonths
  rw [if_neg ha]
  by_cases hb : b = "No Date"
  · rw [if_pos hb]
    decide
  · rw [if_neg hb]
    rcases h with h | h
    · exact absurd h hb
    · simp only [decide_eq_true_eq]
      omega

theorem monthPipeline_spec (ts : List RawRecord)
    (hval : ∀ t ∈ ts, dateKeyOf t = "No Date"
      ∨ isValidDateKey (dateKeyOf t) = true) :
    ∃ M : List (String × List String),
      getMonthGroups ts = M ++ (if "No Date" ∈ sortedDates ts then
        [("No Date", ["No Date"])] else [])
      ∧ (M.map Prod.snd).flatten
          = (sortedDates ts).filter (fun x => x ≠ "No Date")
      ∧ (M.map Prod.fst).Pairwise (fun a b => monthTimeOf a < monthTimeOf b)
      ∧ (∀ p ∈ M, ∀ x ∈ p.2,
          monthLabelOfDate x = p.1 ∧ isValidDateKey x = true)
      ∧ (∀ k ∈ M.map Prod.fst,
          ∃ w, isValidDateKey w = true ∧ k = monthLabelOfDate w)
      ∧ sortedMonthKeys ts = M.map Prod.fst
          ++ (if "No Date" ∈ sortedDates ts then ["No Date"] else [])
      ∧ timelineMonths ts = M.map Prod.fst
      ∧ hasNoDateEntries ts = decide ("No Date" ∈ sortedDates ts) := by
  have hdecomp := pairwise_noDate_decomp (sortedDates ts)
    (sortedDates_pairwise ts hval)
  obtain ⟨R1, R2, R3, R5⟩ := foldl_addMonth_spec
    ((sortedDates ts).filter (fun x => x ≠ "No Date")) []
    (sortedDates_filter_valid ts hval) (sortedDates_filter_pairwise ts hval)
    List.Pairwise.nil (by intro p hp; exact absurd hp (List.not_mem_nil _))
    (by intro x _ kl hkl; exact Option.noConfusion hkl)
    (by intro k hk; exact absurd hk (List.not_mem_nil _))
  rw [show (([] : List (String × List String)).map Prod.snd).flatten
    ++ (sortedDates ts).filter (fun x => x ≠ "No Date")
    = (sortedDates ts).filter (fun x => x ≠ "No Date") from by simp] at R2
  have hkeysNoND : ∀ k ∈ (((sortedDates ts).filter
      (fun x => x ≠ "No Date")).foldl addMonth []).map Prod.fst,
      k ≠ "No Date" := by
    intro k hk
    obtain ⟨w, hw, hkw⟩ := R5 k hk
    rw [hkw]
    exact monthLabelOfDate_ne_noDate hw
  have hMG : getMonthGroups ts
      = ((sortedDates ts).filter (fun x => x ≠ "No Date")).foldl addMonth []
        ++ (if "No Date" ∈ sortedDates ts then [("No Date", ["No Date"])]
            else []) := by
    show (sortedDates ts).foldl addMonth [] = _
    conv_lhs => rw [hdecomp]
    rw [List.foldl_append]
    by_cases hnd : "No Date" ∈ sortedDates ts
    · rw [if_pos hnd, if_pos hnd]
      rw [List.foldl_cons, List.foldl_nil]
      have hstep : addMonth (((sortedDates ts).filter
          (fun x => x ≠ "No Date")).foldl addMonth []) "No Date"
          = assocSetFirst (((sortedDates ts).filter
            (fun x => x ≠ "No Date")).foldl addMonth []) "No Date"
            ["No Date"] := by
        simp only [addMonth]
        simp
      rw [hstep]
      apply assocSetFirst_of_absent
      rw [lookup_eq_none_iff]
      intro hc
      exact hkeysNoND _ hc rfl
    · rw [if_neg hnd, if_neg hnd, List.foldl_nil, List.append_nil]
  have hSMK : sortedMonthKeys ts
      = (((sortedDates ts).filter (fun x => x ≠ "No Date")).foldl
          addMonth []).map Prod.fst
        ++ (if "No Date" ∈ sortedDates ts then ["No Date"] else []) := by
    show jsSortBy leMonths ((getMonthGroups ts).map Prod.fst) = _
    rw [hMG, List.map_append]
    have hite : ((if "No Date" ∈ sortedDates ts then
        [("No Date", ["No Date"])] else []).map Prod.fst)
        = (if "No Date" ∈ sortedDates ts then ["No Date"] else []) := by
      by_cases hnd : "No Date" ∈ sortedDates ts
      · rw [if_pos hnd, if_pos hnd]
        rfl
      · rw [if_neg hnd, if_neg hnd]
        rfl
    rw [hite]
    apply jsSortBy_of_pairwise
    rw [List.pairwise_append]
    refine ⟨?_, ?_, ?_⟩
    · refine List.Pairwise.imp_of_mem ?_ R1
      intro a b ha _ hlt
      exact leMonths_of a b (hkeysNoND a ha) (Or.inr (le_of_lt hlt))
    · by_cases hnd : "No Date" ∈ sortedDates ts
      · rw [if_pos hnd]
        simp
      · rw [if_neg hnd]
        simp
    · intro a ha b hb
      by_cases hnd : "No Date" ∈ sortedDates ts
      · rw [if_pos hnd] at hb
        rcases List.mem_cons.mp hb with hb | hb
        · rw [hb]
          exact leMonths_of a "No Date" (hkeysNoND a ha) (Or.inl rfl)
        · exact absurd hb (List.not_mem_nil _)
      · rw [if_neg hnd] at hb
        exact absurd hb (List.not_mem_nil _)
  refine ⟨((sortedDates ts).filter (fun x => x ≠ "No Date")).foldl addMonth [],
    hMG, R2, R1, R3, R5, hSMK, ?_, ?_⟩
  · show (sortedMonthKeys ts).filter (fun m => m ≠ "No Date") = _
    rw [hSMK, List.filter_append]
    have h1 : ((((sortedDates ts).filter (fun x => x ≠ "No Date")).foldl
        addMonth []).map Prod.fst).filter (fun m => m ≠ "No Date")
        = (((sortedDates ts).filter (fun x => x ≠ "No Date")).foldl
          addMonth []).map Prod.fst := by
      apply List.filter_eq_self.mpr
      intro k hk
      simp [hkeysNoND k hk]
    have h2 : ((if "No Date" ∈ sortedDates ts then ["No Date"]
        else []).filter (fun m => m ≠ "No Date")) = [] := by
      by_cases hnd : "No Date" ∈ sortedDates ts
      · rw [if_pos hnd]
        rfl
      · rw [if_neg hnd]
        rfl
    rw [h1, h2, List.append_nil]
  · show (sortedMonthKeys ts).contains "No Date" = _
    rw [hSMK]
    by_cases hnd : "No Date" ∈ sortedDates ts
    · rw [if_pos hnd, decide_eq_true hnd]
      apply List.elem_eq_true_of_mem
      exact List.mem_append.mpr (Or.inr (List.mem_cons_self _ _))
    · rw [if_neg hnd, List.append_nil]
      rw [decide_eq_false hnd]
      rcases hcont : (((((sortedDates ts).filter (fun x => x ≠ "No Date")).foldl
          addMonth []).map Prod.fst).contains "No Date") with _ | _
      · rfl
      · exfalso
        exact hkeysNoND "No Date" (List.mem_of_elem_eq_true hcont) rfl

/-! ## C6: the month-range window over the report -/

theorem getFilteredDates_reduce (ts : List RawRecord) (a b : Int)
    (h : ¬ (timelineMonths ts).length = 0) :
    getFilteredDates ts (a, b) =
      (((timelineMonths ts).take
          ((max (max 0 (min a (((timelineMonths ts).length : Int) - 1)))
            (min b (((timelineMonths ts).length : Int) - 1)) + 1)).toNat).drop
        (max 0 (min a (((timelineMonths ts).length : Int) - 1))).toNat).flatMap
        (fun m => ((getMonthGroups ts).lookup m).getD [])
      ++ (if hasNoDateEntries ts then ["No Date"] else []) := by
  simp only [getFilteredDates]
  rw [if_neg h]

theorem visibleTasks_eq_flatten (ts : List RawRecord) (r : Int × Int) :
    visibleTasks ts r = ((getFilteredDates ts r).map
      (fun d => ((groupedData ts).lookup d).getD [])).flatten := by
  rw [visibleTasks, List.flatMap_def]

theorem sortedDates_flatMap_perm (ts : List RawRecord) :
    ((((sortedDates ts).map
      (fun d => ((groupedData ts).lookup d).getD [])).flatten)).Perm ts := by
  have h1 := ((sortedDates_perm ts).map
    (fun d => ((groupedData ts).lookup d).getD [])).flatten
  rw [map_lookup_getD _ _ (nodupKeys_groupedData ts)] at h1
  exact h1.trans (groupedData_flatten_perm ts)

theorem lookup_groupedData_noDate (ts : List RawRecord) (t : RawRecord)
    (ht : t ∈ ts) (hk : dateKeyOf t = "No Date") :
    ∃ blk, (groupedData ts).lookup "No Date" = some blk ∧ t ∈ blk := by
  have hchar := lookup_foldl_groupStep ts [] "No Date"
  rw [show ([] : List (String × List RawRecord)).lookup "No Date" = none
    from rfl] at hchar
  have htf : t ∈ ts.filter (fun t => dateKeyOf t == "No Date") :=
    List.mem_filter.mpr ⟨ht, beq_iff_eq.mpr hk⟩
  have hne : ¬ (ts.filter (fun t => dateKeyOf t == "No Date")).isEmpty := by
    rcases hf : ts.filter (fun t => dateKeyOf t == "No Date") with _ | ⟨u, us⟩
    · rw [hf] at htf
      exact absurd htf (List.not_mem_nil _)
    · simp
  rw [if_neg hne] at hchar
  exact ⟨_, hchar, htf⟩

theorem noDate_mem_groupKeys (ts : List RawRecord) (t : RawRecord)
    (ht : t ∈ ts) (hk : dateKeyOf t = "No Date") :
    "No Date" ∈ (groupedData ts).map Prod.fst := by
  obtain ⟨blk, hl, _⟩ := lookup_groupedData_noDate ts t ht hk
  exact List.mem_map_of_mem Prod.fst (lookup_mem hl)

/-- C6: for a task list whose date keys are well-formed dates or the
sentinel: a range covering the entire month timeline yields exactly the
sorted date buckets, and its visible tasks are exactly the full task set;
an empty window (no months and no 'No Date' bucket) yields nothing for any
range; and every range includes the 'No Date' bucket and all its tasks
whenever at least one dateless task exists. -/
theorem visibleTasks_window_spec (ts : List RawRecord)
    (hval : ∀ t ∈ ts, dateKeyOf t = "No Date"
      ∨ isValidDateKey (dateKeyOf t) = true) :
    (∀ a b : Int, a ≤ 0 → ((timelineMonths ts).length : Int) - 1 ≤ b →
      getFilteredDates ts (a, b) = sortedDates ts
      ∧ (visibleTasks ts (a, b)).Perm ts)
  ∧ ((timelineMonths ts).length = 0 → hasNoDateEntries ts = false →
      ∀ r : Int × Int, getFilteredDates ts r = [] ∧ visibleTasks ts r = [])
  ∧ (∀ r : Int × Int, hasNoDateEntries ts = true →
      "No Date" ∈ getFilteredDates ts r
      ∧ ∀ t ∈ ts, dateKeyOf t = "No Date" → t ∈ visibleTasks ts r)
  ∧ ((∃ t ∈ ts, dateKeyOf t = "No Date") → hasNoDateEntries ts = true) := by
  obtain ⟨M, hMG, hMflat, hMpair, hMcont, hMlab, hSMK, hTM, hND⟩ :=
    monthPipeline_spec ts hval
  have hdecomp := pairwise_noDate_decomp (sortedDates ts)
    (sortedDates_pairwise ts hval)
  refine ⟨?_, ?_, ?_, ?_⟩
  · intro a b ha hb
    have hfull : getFilteredDates ts (a, b) = sortedDates ts := by
      by_cases htm : (timelineMonths ts).length = 0
      · have hMnil : M = [] := by
          rw [hTM] at htm
          exact List.map_eq_nil_iff.mp (List.length_eq_zero.mp htm)
        have hvnil : (sortedDates ts).filter (fun x => x ≠ "No Date") = [] := by
          rw [← hMflat, hMnil]
          rfl
        show (if (timelineMonths ts).length = 0 then _ else _) = _
        rw [if_pos htm]
        by_cases hnd : "No Date" ∈ sortedDates ts
        · rw [hND, if_pos (by rw [decide_eq_true hnd])]
          rw [hdecomp, hvnil, if_pos hnd]
          rfl
        · rw [hND, if_neg (by rw [decide_eq_false hnd]; simp)]
          rw [hdecomp, hvnil, if_neg hnd]
          rfl
      · rw [getFilteredDates_reduce ts a b htm]
        have hlen : 1 ≤ (timelineMonths ts).length := Nat.one_le_iff_ne_zero.mpr htm
        have hvs : max 0 (min a (((timelineMonths ts).length : Int) - 1)) = 0 := by
          omega
        have hve : max 0 (min b (((timelineMonths ts).length : Int) - 1))
            = ((timelineMonths ts).length : Int) - 1 := by
          omega
        rw [hvs, hve]
        rw [show (((timelineMonths ts).length : Int) - 1 + 1).toNat
          = (timelineMonths ts).length from by omega]
        rw [Int.toNat_zero, List.take_length, List.drop_zero]
        have hfm : (timelineMonths ts).flatMap
            (fun m => ((getMonthGroups ts).lookup m).getD [])
            = (M.map Prod.snd).flatten := by
          rw [List.flatMap_def, hTM]
          have hcong : ∀ k ∈ M.map Prod.fst,
              ((getMonthGroups ts).lookup k).getD ([] : List String)
              = (M.lookup k).getD [] := by
            intro k hk
            rw [hMG, lookup_append_left hk]
          rw [List.map_congr_left hcong]
          rw [map_lookup_getD M [] (strict_pairwise_nodup hMpair)]
        rw [hfm, hMflat]
        by_cases hnd : "No Date" ∈ sortedDates ts
        · rw [if_pos (by rw [hND, decide_eq_true hnd])]
          conv_rhs => rw [hdecomp]
          rw [if_pos hnd]
        · rw [if_neg (by rw [hND, decide_eq_false hnd]; simp)]
          conv_rhs => rw [hdecomp]
          rw [if_neg hnd, List.append_nil]
    refine ⟨hfull, ?_⟩
    rw [visibleTasks_eq_flatten, hfull]
    exact sortedDates_flatMap_perm ts
  · intro htm hnd r
    rcases r with ⟨a, b⟩
    have hf : getFilteredDates ts (a, b) = [] := by
      show (if (timelineMonths ts).length = 0 then _ else _) = _
      rw [if_pos htm, hnd]
      simp
    refine ⟨hf, ?_⟩
    rw [visibleTasks_eq_flatten, hf]
    rfl
  · intro r hnd
    rcases r with ⟨a, b⟩
    have hf : "No Date" ∈ getFilteredDates ts (a, b) := by
      by_cases htm : (timelineMonths ts).length = 0
      · show "No Date" ∈ (if (timelineMonths ts).length = 0 then _ else _)
        rw [if_pos htm, hnd]
        simp
      · rw [getFilteredDates_reduce ts a b htm, hnd]
        refine List.mem_append.mpr (Or.inr ?_)
        simp
    refine ⟨hf, ?_⟩
    intro t ht hk
    obtain ⟨blk, hl, htb⟩ := lookup_groupedData_noDate ts t ht hk
    rw [visibleTasks]
    refine List.mem_flatMap.mpr ⟨"No Date", hf, ?_⟩
    rw [hl]
    exact htb
  · rintro ⟨t, ht, hk⟩
    have hks := noDate_mem_groupKeys ts t ht hk
    have hs : "No Date" ∈ sortedDates ts := (sortedDates_perm ts).mem_iff.mpr hks
    rw [hND, decide_eq_true hs]

/-- Witness for C6 at concrete inputs: two dated tasks and one dateless
task; the full window (range (-1, 50)) yields all buckets in sorted
order. -/
theorem visibleTasks_window_spec_witness :
    getFilteredDates [[("date", JsVal.vstr "2025-03-01")],
      [("title", JsVal.vstr "x")], [("date", JsVal.vstr "2024-12-31")]]
      ((-1 : Int), (50 : Int))
      = sortedDates [[("date", JsVal.vstr "2025-03-01")],
        [("title", JsVal.vstr "x")], [("date", JsVal.vstr "2024-12-31")]]
  ∧ "No Date" ∈ getFilteredDates [[("date", JsVal.vstr "2025-03-01")],
      [("title", JsVal.vstr "x")], [("date", JsVal.vstr "2024-12-31")]]
      ((2 : Int), (2 : Int)) := by
  constructor
  · exact ((visibleTasks_window_spec [[("date", JsVal.vstr "2025-03-01")],
      [("title", JsVal.vstr "x")], [("date", JsVal.vstr "2024-12-31")]]
      (by decide)).1 (-1) 50 (by decide) (by decide)).1
  · exact ((visibleTasks_window_spec [[("date", JsVal.vstr "2025-03-01")],
      [("title", JsVal.vstr "x")], [("date", JsVal.vstr "2024-12-31")]]
      (by decide)).2.2.1 (2, 2) (by decide)).1

/-! ## C9: month keys are year-qualified -/

/-- C9: month grouping keys carry the year ("Mon YYYY"), so two
well-formed date buckets falling in the same calendar month of different
years get distinct labels, occupy distinct entries of the month timeline,
and land in distinct month groups: the cross-year month-label collision
cannot occur. -/
theorem monthGroups_year_qualified (ts : List RawRecord)
    (hval : ∀ t ∈ ts, dateKeyOf t = "No Date"
      ∨ isValidDateKey (dateKeyOf t) = true)
    (d1 d2 : String)
    (h1 : d1 ∈ (groupedData ts).map Prod.fst)
    (h2 : d2 ∈ (groupedData ts).map Prod.fst)
    (y1 m dd1 y2 dd2 : Nat)
    (hp1 : parseYMD? d1 = some (y1, m, dd1))
    (hp2 : parseYMD? d2 = some (y2, m, dd2))
    (hy : y1 ≠ y2) :
    monthLabelOfDate d1 ≠ monthLabelOfDate d2
  ∧ monthLabelOfDate d1 ∈ timelineMonths ts
  ∧ monthLabelOfDate d2 ∈ timelineMonths ts
  ∧ ∃ b1, (getMonthGroups ts).lookup (monthLabelOfDate d1) = some b1
      ∧ d1 ∈ b1 ∧ d2 ∉ b1 := by
  have hv1 : isValidDateKey d1 = true := by
    rcases groupKey_valid ts hval d1 h1 with hn | hv
    · exfalso
      rw [hn] at hp1
      rw [show parseYMD? "No Date" = none from rfl] at hp1
      exact Option.noConfusion hp1
    · exact hv
  have hv2 : isValidDateKey d2 = true := by
    rcases groupKey_valid ts hval d2 h2 with hn | hv
    · exfalso
      rw [hn] at hp2
      rw [show parseYMD? "No Date" = none from rfl] at hp2
      exact Option.noConfusion hp2
    · exact hv
  have hl1 : monthLabelOfDate d1 = monthLabel y1 m := by
    unfold monthLabelOfDate
    rw [hp1]
  have hl2 : monthLabelOfDate d2 = monthLabel y2 m := by
    unfold monthLabelOfDate
    rw [hp2]
  obtain ⟨ya, ma, da, hpa, _, _, _, hma1, hma2, _, _⟩ :=
    monthLabelOfDate_valid hv1
  rw [hp1] at hpa
  simp only [Option.some_inj, Prod.mk.injEq] at hpa
  obtain ⟨-, hmaeq, -⟩ := hpa
  have hm1 : 1 ≤ m := by rw [hmaeq]; exact hma1
  have hm2 : m ≤ 12 := by rw [hmaeq]; exact hma2
  have hlne : monthLabelOfDate d1 ≠ monthLabelOfDate d2 := by
    rw [hl1, hl2]
    intro hc
    exact hy (monthLabel_inj hm1 hm2 hm1 hm2 hc).1
  obtain ⟨M, hMG, hMflat, hMpw, hMcont, -, -, hTM, -⟩ :=
    monthPipeline_spec ts hval
  have hblock : ∀ d : String, d ∈ (groupedData ts).map Prod.fst →
      isValidDateKey d = true →
      ∃ p ∈ M, d ∈ p.2 ∧ p.1 = monthLabelOfDate d := by
    intro d hd hv
    have hmem : d ∈ sortedDates ts := (sortedDates_perm ts).mem_iff.mpr hd
    have hne : d ≠ "No Date" := valid_ne_noDate hv
    have hfil : d ∈ (sortedDates ts).filter (fun x => x ≠ "No Date") :=
      List.mem_filter.mpr ⟨hmem, by simp [hne]⟩
    rw [← hMflat] at hfil
    obtain ⟨L, hL, hdL⟩ := List.mem_flatten.mp hfil
    obtain ⟨p, hp, hpL⟩ := List.mem_map.mp hL
    have hdp : d ∈ p.2 := by rw [hpL]; exact hdL
    exact ⟨p, hp, hdp, ((hMcont p hp d hdp).1).symm⟩
  obtain ⟨p1, hp1M, hd1p, hk1⟩ := hblock d1 h1 hv1
  obtain ⟨p2, hp2M, hd2p, hk2⟩ := hblock d2 h2 hv2
  have htl1 : monthLabelOfDate d1 ∈ timelineMonths ts := by
    rw [hTM, ← hk1]
    exact List.mem_map_of_mem Prod.fst hp1M
  have htl2 : monthLabelOfDate d2 ∈ timelineMonths ts := by
    rw [hTM, ← hk2]
    exact List.mem_map_of_mem Prod.fst hp2M
  have hkeys : monthLabelOfDate d1 ∈ M.map Prod.fst := by
    rw [← hk1]
    exact List.mem_map_of_mem Prod.fst hp1M
  have hnodupK : (M.map Prod.fst).Nodup := strict_pairwise_nodup hMpw
  have hlk : (getMonthGroups ts).lookup (monthLabelOfDate d1)
      = M.lookup (monthLabelOfDate d1) := by
    rw [hMG]
    exact lookup_append_left hkeys
  rcases hMl : M.lookup (monthLabelOfDate d1) with _ | b
  · exact absurd hkeys (lookup_eq_none_iff.mp hMl)
  · have hmemb : (monthLabelOfDate d1, b) ∈ M := lookup_mem hMl
    have hmemp : (monthLabelOfDate d1, p1.2) ∈ M := by
      rw [← hk1]
      exact hp1M
    have hbp : b = p1.2 := nodup_fst_mem_eq hnodupK hmemb hmemp
    refine ⟨hlne, htl1, htl2, b, ?_, ?_, ?_⟩
    · rw [hlk, hMl]
    · rw [hbp]
      exact hd1p
    · intro hc
      rw [hbp] at hc
      have hcl := (hMcont p1 hp1M d2 hc).1
      rw [hk1] at hcl
      exact hlne hcl.symm

/-- Witness for C9 at the concrete dataset {2024-03-05, 2025-03-07}: same
calendar month, different years, distinct labels and groups. -/
theorem monthGroups_year_qualified_witness :
    monthLabelOfDate "2024-03-05" ≠ monthLabelOfDate "2025-03-07"
  ∧ monthLabelOfDate "2024-03-05" ∈ timelineMonths
      [[("date", JsVal.vstr "2024-03-05")], [("date", JsVal.vstr "2025-03-07")]]
  ∧ monthLabelOfDate "2025-03-07" ∈ timelineMonths
      [[("date", JsVal.vstr "2024-03-05")], [("date", JsVal.vstr "2025-03-07")]]
  ∧ ∃ b1, (getMonthGroups
        [[("date", JsVal.vstr "2024-03-05")],
         [("date", JsVal.vstr "2025-03-07")]]).lookup
      (monthLabelOfDate "2024-03-05") = some b1
      ∧ "2024-03-05" ∈ b1 ∧ "2025-03-07" ∉ b1 :=
  monthGroups_year_qualified
    [[("date", JsVal.vstr "2024-03-05")], [("date", JsVal.vstr "2025-03-07")]]
    (by decide) "2024-03-05" "2025-03-07" (by decide) (by decide)
    2024 3 5 2025 7 (by decide) (by decide) (by decide)

end MakeReady
